import Mathlib

/-!
# Verification of the comment scanner in `src/parser.ts` (better-comments)

This file gives a shallow embedding of the comment-detection engine of the
repository (the `Parser` class of `src/parser.ts`) and proves the frozen
claims about it.

Strings are modelled as `List Char`.  The regular expressions the source
builds by string concatenation are modelled by their matching semantics:
a small CPS backtracking matcher that mirrors the ECMAScript semantics of
exactly the constructs the built patterns use (greedy `+` and `*` with
backtracking, left-to-right alternation, lazy `[\s\S]*?`, the
empty-iteration stopping rule for quantified groups, `g`/`m`/`i` flags,
and `exec`'s leftmost-from-lastIndex search loop).  Fuel parameters make
every function structurally total; all top-level entry points pass fuel
larger than any reachable recursion depth, so the fuel never changes the
result on terminating runs (a run of the JS code that would loop forever,
e.g. an `exec` loop over an empty match, is truncated by the fuel).

Escaping note: `setTags` escapes regex metacharacters in each configured
tag (`escapedTag`) and `SetRegex` escapes `/` in the delimiter before
embedding them in the pattern string.  As regexes, those escaped forms
match exactly the original literal text, so the semantic matchers below
take the original literals; the escaped strings themselves are also
computed and stored, faithful to the source.
-/

set_option autoImplicit false

abbrev Str := List Char

/-- A position as produced by `TextDocument.positionAt`: (line, character). -/
abbrev Pos := Nat × Nat

/-- A `vscode.Range`, i.e. the payload of a pushed `DecorationOptions`. -/
abbrev Range := Pos × Pos

/-! ## Case-insensitive matching primitives (`i` flag / `toLowerCase`) -/

/-- Case-insensitive equality of strings, as used both by the `i` regex flag
and by `item.tag.toLowerCase() === match[3].toLowerCase()` (ASCII model). -/
def ciEqL (a b : Str) : Bool := a.map Char.toLower == b.map Char.toLower

/-- `t` occurs case-insensitively at the start of `s`. -/
def ciPre (t s : Str) : Bool := ciEqL t (s.take t.length)

/-- `t` occurs case-insensitively at offset `i` of `text`. -/
def ciAt (t text : Str) (i : Nat) : Bool := ciPre t (text.drop i)

/-- Case-sensitive occurrence at an offset (the multiline outer patterns have
no `i` flag; they only contain symbol characters anyway). -/
def exactAt (pat text : Str) (i : Nat) : Bool := (text.drop i).take pat.length == pat

/-! ## `TextDocument.positionAt` (host model)

Offsets are clamped to the document, a line break is `\n`, `\r\n` or a lone
`\r`, and the character is the offset within the line. -/

def posAtGo : Str → Nat → Bool → Nat → Nat → Pos
  | _, 0, _, line, col => (line, col)
  | [], _+1, _, line, col => (line, col)
  | c :: rest, n+1, afterCR, line, col =>
    if c = '\n' then
      if afterCR then posAtGo rest n false line col
      else posAtGo rest n false (line+1) 0
    else if c = '\r' then posAtGo rest n true (line+1) 0
    else posAtGo rest n false line (col+1)

def posAt (text : Str) (off : Nat) : Pos :=
  posAtGo text (min off text.length) false 0 0

/-! ## CPS backtracking matchers

`Option.orElse` (`<|>`) encodes backtracking priority: the left operand is
the preferred parse.  A continuation receives the end offset of the piece
just matched (and, for capturing alternations, the captured text). -/

/-- Greedy `(unit)+`: one or more repetitions, preferring more, backtracking
to fewer.  An iteration that consumes nothing stops the repetition (the
ECMAScript empty-iteration rule). -/
def matchRepPlus {α : Type} (unit : Nat → Option Nat) (k : Nat → Option α) :
    Nat → Nat → Option α
  | _, 0 => none
  | i, fl+1 =>
    match unit i with
    | none => none
    | some j => if j = i then k j else (matchRepPlus unit k j fl <|> k j)

/-- Greedy `(unit)*`: zero or more repetitions, preferring more. -/
def matchStar {α : Type} (unit : Nat → Option Nat) (k : Nat → Option α) :
    Nat → Nat → Option α
  | _, 0 => none
  | i, fl+1 =>
    match unit i with
    | none => k i
    | some j => if j = i then k i else (matchStar unit k j fl <|> k i)

/-- One alternation step `(t1|t2|...)`: alternatives tried left to right
(registration order); the continuation receives the end offset and the text
actually consumed from the document (the capture). -/
def matchAltOnce {α : Type} (alts : List Str) (text : Str)
    (k : Nat → Str → Option α) (i : Nat) : Option α :=
  match alts with
  | [] => none
  | t :: ts =>
    (if ciAt t text i then k (i + t.length) ((text.drop i).take t.length) else none)
      <|> matchAltOnce ts text k i

/-- The optional further iterations of `(alt)+` after the first: greedy, each
further iteration must consume at least one character (empty-iteration rule);
`cap` is the capture of the last completed iteration. -/
def matchAltPlusRest {α : Type} (alts : List Str) (text : Str)
    (k : Nat → Str → Option α) : Nat → Str → Nat → Option α
  | _, _, 0 => none
  | i, cap, fl+1 =>
    (matchAltOnce alts text
        (fun j c => if j = i then none else matchAltPlusRest alts text k j c fl) i)
      <|> k i cap

/-- Greedy `(t1|t2|...)+` with last-iteration capture (the group 3 of the
single-line expression built in `SetRegex`). -/
def matchAltPlus {α : Type} (alts : List Str) (text : Str)
    (k : Nat → Str → Option α) (i : Nat) (fl : Nat) : Option α :=
  match fl with
  | 0 => none
  | flr+1 => matchAltOnce alts text (fun j c => matchAltPlusRest alts text k j c flr) i

/-- Lazy `[\s\S]*?`: prefer consuming nothing, grow one (arbitrary) character
at a time. -/
def lazyAny {α : Type} (text : Str) (k : Nat → Option α) : Nat → Nat → Option α
  | _, 0 => none
  | i, fl+1 => k i <|> (if i < text.length then lazyAny text k (i+1) fl else none)

/-! ## Units for the single-line expression `(D)+( |\t)*(alt)+(.*)`
(built in `SetRegex`, flags `ig`). -/

/-- One repetition of the (slash-escaped, hence literal) delimiter. -/
def delimUnit (D text : Str) (i : Nat) : Option Nat :=
  if ciAt D text i then some (i + D.length) else none

/-- One `( |\t)` character. -/
def wsUnit (text : Str) (i : Nat) : Option Nat :=
  match text.drop i with
  | c :: _ => if c = ' ' ∨ c = '\t' then some (i + 1) else none
  | [] => none

/-- End of the greedy `(.*)`: `.` matches anything but a line terminator. -/
def lineEndFrom (text : Str) (i : Nat) : Nat :=
  i + ((text.drop i).takeWhile (fun c => !(c == '\n' || c == '\r'))).length

/-- Attempt of the whole single-line expression at offset `i`.  On success
returns (end offset of `match[0]`, capture `match[3]`, capture `match[4]`). -/
def slTryAt (D : Str) (alts : List Str) (text : Str) (i : Nat) :
    Option (Nat × Str × Str) :=
  matchRepPlus (delimUnit D text)
    (fun j => matchStar (wsUnit text)
      (fun j2 => matchAltPlus alts text
        (fun j3 cap =>
          some (lineEndFrom text j3, cap, (text.drop j3).take (lineEndFrom text j3 - j3)))
        j2 (text.length + 1))
      j (text.length + 1))
    i (text.length + 1)

/-- One `exec` result of the single-line regex. -/
structure SLMatch where
  index : Nat
  stop : Nat
  tagText : Str
  trailing : Str
deriving DecidableEq, Repr

/-- `exec` search: leftmost match starting at or after `i`. -/
def slFindFrom (D : Str) (alts : List Str) (text : Str) : Nat → Nat → Option SLMatch
  | _, 0 => none
  | i, fl+1 =>
    if i ≤ text.length then
      match slTryAt D alts text i with
      | some (e, g3, g4) => some ⟨i, e, g3, g4⟩
      | none => slFindFrom D alts text (i+1) fl
    else none

/-- The `while (match = regEx.exec(text))` loop of `FindSingleLineComments`:
`lastIndex` advances to the end of each match. -/
def slAllMatches (D : Str) (alts : List Str) (text : Str) : Nat → Nat → List SLMatch
  | _, 0 => []
  | i, fl+1 =>
    match slFindFrom D alts text i (text.length + 2) with
    | none => []
    | some m => m :: slAllMatches D alts text m.stop fl

/-! ## The multiline patterns of `FindMultilineComments` -/

/-- `^` under the `m` flag: start of input or right after a line terminator. -/
def lineStartAt (text : Str) (i : Nat) : Bool :=
  i == 0 ||
    (match text.drop (i-1) with
     | c :: _ => c == '\n' || c == '\r'
     | [] => false)

/-- One `(\/\*\*)` of the doc-style outer pattern. -/
def jsdocOpenUnit (text : Str) (i : Nat) : Option Nat :=
  if exactAt ['/', '*', '*'] text i then some (i + 3) else none

/-- One `(\/\*[^*])` of the plain outer pattern. -/
def plainOpenUnit (text : Str) (i : Nat) : Option Nat :=
  if exactAt ['/', '*'] text i then
    match text.drop (i+2) with
    | c :: _ => if c = '*' then none else some (i + 3)
    | [] => none
  else none

/-- The closing `(\*\/)`. -/
def mlCloseUnit (text : Str) (b : Nat) : Option Nat :=
  if exactAt ['*', '/'] text b then some (b + 2) else none

/-- Attempt of the outer block pattern `(^|[ \t])(open)+([\s\S]*?)(\*\/)`
(flags `gm`) at offset `i`; returns the end offset of `match[0]`. -/
def mlOuterTryAt (jsdoc : Bool) (text : Str) (i : Nat) : Option Nat :=
  let unit := if jsdoc then jsdocOpenUnit text else plainOpenUnit text
  let core := fun (p : Nat) =>
    matchRepPlus unit
      (fun j => lazyAny text (fun b => mlCloseUnit text b) j (text.length + 1))
      p (text.length + 1)
  (if lineStartAt text i then core i else none) <|>
    (match text.drop i with
     | c :: _ => if c = ' ' ∨ c = '\t' then core (i+1) else none
     | [] => none)

structure MLOuter where
  index : Nat
  stop : Nat
deriving DecidableEq, Repr

def mlOuterFindFrom (jsdoc : Bool) (text : Str) : Nat → Nat → Option MLOuter
  | _, 0 => none
  | i, fl+1 =>
    if i ≤ text.length then
      match mlOuterTryAt jsdoc text i with
      | some e => some ⟨i, e⟩
      | none => mlOuterFindFrom jsdoc text (i+1) fl
    else none

/-- The outer `while (match = regEx.exec(text))` loop. -/
def mlOuterAll (jsdoc : Bool) (text : Str) : Nat → Nat → List MLOuter
  | _, 0 => []
  | i, fl+1 =>
    match mlOuterFindFrom jsdoc text i (text.length + 2) with
    | none => []
    | some m => m :: mlOuterAll jsdoc text m.stop fl

/-- `(^)+` of the inner pattern (zero-width unit, so it holds exactly when
the position is a line start). -/
def caretPlus {α : Type} (text : Str) (k : Nat → Option α) (i : Nat) : Option α :=
  matchRepPlus (fun p => if lineStartAt text p then some p else none) k i
    (text.length + 1)

/-- Group 2 of the inner pattern: `([ \t]*\*[ \t]*)` for the doc style,
`([ \t]*[ \t]*)` otherwise. -/
def innerLead {α : Type} (jsdoc : Bool) (text : Str) (k : Nat → Option α)
    (i : Nat) : Option α :=
  if jsdoc then
    matchStar (wsUnit text)
      (fun j => match text.drop j with
        | c :: _ =>
          if c = '*' then matchStar (wsUnit text) k (j+1) (text.length + 1) else none
        | [] => none)
      i (text.length + 1)
  else
    matchStar (wsUnit text) (fun j => matchStar (wsUnit text) k j (text.length + 1))
      i (text.length + 1)

/-- One `[ ]` character. -/
def spaceUnit (text : Str) (i : Nat) : Option Nat :=
  match text.drop i with
  | c :: _ => if c = ' ' then some (i+1) else none
  | [] => none

/-- One iteration of group 4 `([ ]*|[:])`: the space-star alternative first,
then the colon. -/
def sepOnce {α : Type} (text : Str) (k : Nat → Option α) (i : Nat) : Option α :=
  matchStar (spaceUnit text) k i (text.length + 1) <|>
    (match text.drop i with
     | c :: _ => if c = ':' then k (i+1) else none
     | [] => none)

/-- Further iterations of `([ ]*|[:])+` (each must consume a character). -/
def sepRest {α : Type} (text : Str) (k : Nat → Option α) : Nat → Nat → Option α
  | _, 0 => none
  | i, fl+1 =>
    sepOnce text (fun j => if j = i then none else sepRest text k j fl) i <|> k i

/-- Greedy `([ ]*|[:])+`. -/
def sepPlus {α : Type} (text : Str) (k : Nat → Option α) (i : Nat) : Option α :=
  sepOnce text (fun j => sepRest text k j (text.length + 1)) i

/-- Group 5 `([^*/][^\r\n]*)`: a character other than `*` and `/` (any other
character, line terminators included), then the rest of that line.  Returns
the end offset. -/
def tailUnit (text : Str) (i : Nat) : Option Nat :=
  match text.drop i with
  | c :: _ => if c = '*' ∨ c = '/' then none else some (lineEndFrom text (i+1))
  | [] => none

/-- One `exec` result of the inner pattern against a comment block:
`index`, `match[0].length`, `match[2].length` and the capture `match[3]`. -/
structure MLInner where
  index : Nat
  len0 : Nat
  len2 : Nat
  tagText : Str
deriving DecidableEq, Repr

/-- Attempt of the inner pattern
`(^)+(lead)(t1|...|tn)([ ]*|[:])+([^*/][^\r\n]*)` (flags `igm`) at `p`. -/
def mlInnerTryAt (jsdoc : Bool) (alts : List Str) (block : Str) (p : Nat) :
    Option MLInner :=
  caretPlus block (fun p1 =>
    innerLead jsdoc block (fun j2 =>
      matchAltOnce alts block (fun j3 cap =>
        sepPlus block (fun j4 =>
          match tailUnit block j4 with
          | some e => some ⟨p, e - p, j2 - p, cap⟩
          | none => none) j3) j2) p1) p

def mlInnerFindFrom (jsdoc : Bool) (alts : List Str) (block : Str) :
    Nat → Nat → Option MLInner
  | _, 0 => none
  | i, fl+1 =>
    if i ≤ block.length then
      match mlInnerTryAt jsdoc alts block i with
      | some m => some m
      | none => mlInnerFindFrom jsdoc alts block (i+1) fl
    else none

/-- The inner `while (line = commentRegEx.exec(commentBlock))` loop. -/
def mlInnerAll (jsdoc : Bool) (alts : List Str) (block : Str) :
    Nat → Nat → List MLInner
  | _, 0 => []
  | i, fl+1 =>
    match mlInnerFindFrom jsdoc alts block i (block.length + 2) with
    | none => []
    | some m => m :: mlInnerAll jsdoc alts block (m.index + m.len0) fl

/-! ## Data model (`CommentTag`, `Contributions`, the `Parser` fields) -/

/-- The `vscode.TextEditorDecorationType` built in `setTags`: the options
record it was created from (opaque to the scanner). -/
structure Decoration where
  color : Str
  textDecoration : Option Str
deriving DecidableEq, Repr

/-- interface CommentTag -/
structure CommentTag where
  tag : Str
  escapedTag : Str
  decoration : Decoration
  ranges : List Range
deriving DecidableEq, Repr

/-- One entry of `contributions.tags`. -/
structure TagInput where
  tag : Str
  color : Str
  strikethrough : Bool
deriving DecidableEq, Repr

/-- interface Contributions (read from package.json). -/
structure Contributions where
  multilineComments : Bool
  useJSDocStyle : Bool
  tags : List TagInput
deriving DecidableEq, Repr

/-- The mutable fields of the `Parser` class.  The built single-line
expression `"(" + delim' + ")+( |\t)*(" + alts' + ")+(.*)"` is kept both as
the literal string (`expression`) and by its two semantic constituents: the
delimiter and the alternative literals it denotes (`expressionDelim`,
`expressionAlts`), which is what the matcher consumes. -/
structure ParserState where
  tags : List CommentTag
  expression : Str
  expressionDelim : Str
  expressionAlts : List Str
  delimiter : Str
  highlightMultilineComments : Bool
  ignoreFirstLine : Bool
  supportedLanguage : Bool
  contributions : Contributions
deriving DecidableEq, Repr

/-! ## `setTags` and construction -/

/-- Character-by-character expansion (model of `String.replace` with a
single-character pattern class). -/
def expand (f : Char → Str) : Str → Str
  | [] => []
  | c :: r => f c ++ expand f r

/-- The characters escaped by `item.tag.replace(/([()[{*+.$^\\|?])/g, '\\$1')`. -/
def escapeChars : List Char := ['(', ')', '[', '{', '*', '+', '.', '$', '^', '\\', '|', '?']

/-- `.replace(/\//gi, "\\/")` (hardcoded slash escape). -/
def escapeSlash (s : Str) : Str :=
  expand (fun c => if c = '/' then ['\\', c] else [c]) s

/-- `escapedTag` as computed in `setTags`. -/
def escapedTagOf (t : Str) : Str :=
  escapeSlash (expand (fun c => if c ∈ escapeChars then ['\\', c] else [c]) t)

/-- private setTags(): builds the `CommentTag` list from the contributions. -/
def setTags (st : ParserState) : ParserState :=
  { st with tags := st.contributions.tags.map (fun item =>
      { tag := item.tag
        escapedTag := escapedTagOf item.tag
        decoration :=
          { color := item.color
            textDecoration :=
              if item.strikethrough then some "line-through".toList else none }
        ranges := [] }) }

/-- The constructor: field initializers, then `this.setTags()`. -/
def Parser.new (contrib : Contributions) : ParserState :=
  setTags
    { tags := []
      expression := []
      expressionDelim := []
      expressionAlts := []
      delimiter := []
      highlightMultilineComments := false
      ignoreFirstLine := false
      supportedLanguage := true
      contributions := contrib }

/-! ## `setDelimiter`: the language classification switch -/

/-- private setDelimiter(languageCode): the classification switch of
`src/parser.ts` lines 162-248, branch for branch.  Note that, exactly as in
the source, only `supportedLanguage` is unconditionally (re)assigned;
`delimiter`, `highlightMultilineComments` and `ignoreFirstLine` keep their
previous values in branches that do not assign them. -/
def setDelimiter (st : ParserState) (languageCode : String) : ParserState :=
  let s := { st with supportedLanguage := true }
  if languageCode ∈ ["al", "c", "cpp", "csharp", "css", "dart", "fsharp", "go",
      "haxe", "java", "javascript", "javascriptreact", "jsonc", "kotlin",
      "less", "pascal", "objectpascal", "php", "rust", "scala", "scss",
      "swift", "typescript", "typescriptreact"] then
    { s with delimiter := "//".toList
             highlightMultilineComments := s.contributions.multilineComments }
  else if languageCode ∈ ["coffeescript", "dockerfile", "elixir", "graphql",
      "julia", "makefile", "perl", "perl6", "powershell", "r", "ruby",
      "shellscript", "yaml"] then
    { s with delimiter := "#".toList }
  else if languageCode = "python" then
    { s with delimiter := "#".toList, ignoreFirstLine := true }
  else if languageCode ∈ ["ada", "haskell", "plsql", "sql", "lua"] then
    { s with delimiter := "--".toList }
  else if languageCode = "vb" then
    { s with delimiter := "'".toList }
  else if languageCode ∈ ["erlang", "latex", "matlab"] then
    { s with delimiter := "%".toList }
  else if languageCode ∈ ["clojure", "racket", "lisp"] then
    { s with delimiter := ";".toList }
  else if languageCode = "terraform" then
    { s with delimiter := "#".toList
             highlightMultilineComments := s.contributions.multilineComments }
  else
    { s with supportedLanguage := false }

/-- `characters.join("|")`. -/
def joinBar : List Str → Str
  | [] => []
  | [t] => t
  | t :: ts => t ++ '|' :: joinBar ts

/-- public SetRegex(languageCode): resolves the delimiter, then builds the
single-line expression.  `expression` is the literal pattern string; as a
regex its delimiter part and its alternatives match exactly the literal
delimiter and tag strings (escaping makes them literal), recorded in
`expressionDelim` / `expressionAlts` for the semantic matcher. -/
def SetRegex (st : ParserState) (languageCode : String) : ParserState :=
  let s := setDelimiter st languageCode
  { s with
    expression :=
      '(' :: escapeSlash s.delimiter ++ ")+( |\t)*(".toList ++
        joinBar (s.tags.map (·.escapedTag)) ++ ")+(.*)".toList
    expressionDelim := s.delimiter
    expressionAlts := s.tags.map (·.tag) }

/-! ## The scanning passes -/

/-- `this.tags.find(item => item.tag.toLowerCase() === g3.toLowerCase())`
followed by `matchTag.ranges.push(range)`: append the range to the first
matching tag, leave everything unchanged when no tag matches. -/
def pushRange (tags : List CommentTag) (g3 : Str) (r : Range) : List CommentTag :=
  match tags with
  | [] => []
  | t :: ts =>
    if ciEqL t.tag g3 then { t with ranges := t.ranges ++ [r] } :: ts
    else t :: pushRange ts g3 r

/-- All matches of the compiled single-line expression over the document. -/
def slMatches (st : ParserState) (text : Str) : List SLMatch :=
  slAllMatches st.expressionDelim st.expressionAlts text 0 (text.length + 2)

/-- public FindSingleLineComments: iterate the matches; skip a match that
starts at line 0 character 0 when `ignoreFirstLine` is set (#61); look up the
tag by `match[3]` and push the range over the whole match. -/
def FindSingleLineComments (st : ParserState) (text : Str) : ParserState :=
  (slMatches st text).foldl
    (fun s m =>
      if s.ignoreFirstLine ∧ (posAt text m.index).1 = 0 ∧ (posAt text m.index).2 = 0
      then s
      else { s with tags := pushRange s.tags m.tagText (posAt text m.index, posAt text m.stop) })
    st

/-- public FindMultilineComments(activeEditor, findJSDoc = false): early
return unless multiline highlighting applies; otherwise, for every outer
block match, run the inner pattern over the block text and push, for every
inner match, the range from (outer index + inner index + `line[2].length`)
to (outer index + inner index + `line[0].length`). -/
def FindMultilineComments (st : ParserState) (text : Str)
    (findJSDoc : Bool := false) : ParserState :=
  if st.highlightMultilineComments then
    let alts := st.tags.map (·.tag)
    (mlOuterAll findJSDoc text 0 (text.length + 2)).foldl
      (fun s om =>
        let block := (text.drop om.index).take (om.stop - om.index)
        (mlInnerAll findJSDoc alts block 0 (block.length + 2)).foldl
          (fun s2 im =>
            let r : Range := (posAt text (om.index + im.index + im.len2),
                              posAt text (om.index + im.index + im.len0))
            { s2 with tags := pushRange s2.tags im.tagText r })
          s)
      st
  else st

/-- public ApplyDecorations: for every tag, in order, emit
`setDecorations(tag.decoration, tag.ranges)` and then clear the ranges. -/
def ApplyDecorations (st : ParserState) : List (Decoration × List Range) × ParserState :=
  (st.tags.map (fun t => (t.decoration, t.ranges)),
   { st with tags := st.tags.map (fun t => { t with ranges := [] }) })

/-- Modelled from the spec: the scan-cycle driver (the editor-event glue that
invokes the parser) is not part of `src/src/parser.ts`; per the spec (§4.4,
§7), when the resolved language is unsupported the scanner performs no
matching at all (a clear no-op path), otherwise one cycle runs the
single-line pass and the multi-line pass (doc-style according to the
configured flag), and the cycle ends with the flush. -/
def runScanCycle (st : ParserState) (text : Str) :
    List (Decoration × List Range) × ParserState :=
  let scanned :=
    if st.supportedLanguage then
      FindMultilineComments (FindSingleLineComments st text) text
        st.contributions.useJSDocStyle
    else st
  ApplyDecorations scanned

/-- A parser state with every tag's accumulated ranges erased: the part of
the state that is not cycle-transient. -/
def stripState (s : ParserState) : ParserState :=
  { s with tags := s.tags.map (fun t => { t with ranges := [] }) }

/-- The well-formedness every delimiter of the classification table enjoys:
nonempty, and made of case-stable symbol characters that are neither line
terminators nor the blanks `( |\t)` consumes. -/
def delimOk (Dl : Str) : Prop :=
  Dl ≠ [] ∧ ∀ c ∈ Dl, c.toLower = c ∧ c ≠ '\n' ∧ c ≠ '\r' ∧ c ≠ ' ' ∧ c ≠ '\t'

instance (Dl : Str) : Decidable (delimOk Dl) := by
  unfold delimOk
  infer_instance

/-- Scenario document used by several claims: `n` leading newlines, the
delimiter, one space, a tag occurrence, then the rest of the line. -/
def scenDoc (D TAG rest : Str) (n : Nat) : Str :=
  List.replicate n '\n' ++ (D ++ ' ' :: (TAG ++ rest))

/-! # Proof development -/

/-! ## Basic facts about `Option.orElse` -/

theorem orElse_none_left {α : Type} (b : Option α) : (none <|> b) = b := rfl

theorem orElse_some_left {α : Type} (a : α) (b : Option α) : (some a <|> b) = some a := rfl

theorem orElse_isSome_right {α : Type} (a b : Option α) (h : b.isSome = true) :
    (a <|> b).isSome = true := by
  cases a with
  | none => exact h
  | some v => rfl

/-! ## List helpers -/

theorem take_len_app {α : Type} (a b : List α) : (a ++ b).take a.length = a := by
  induction a with
  | nil => rfl
  | cons x xs ih => simp [List.take_succ_cons, ih]

theorem drop_len_app {α : Type} (a b : List α) : (a ++ b).drop a.length = b := by
  induction a with
  | nil => rfl
  | cons x xs ih => simp [ih]

theorem takeWhile_all {α : Type} (p : α → Bool) (l : List α)
    (h : ∀ c ∈ l, p c = true) : l.takeWhile p = l := by
  induction l with
  | nil => rfl
  | cons x xs ih =>
    rw [List.takeWhile_cons, if_pos (h x (List.mem_cons_self x xs))]
    exact congrArg (x :: ·) (ih fun c hc => h c (List.mem_cons_of_mem x hc))

theorem map_if_id {α : Type} (p : α → Bool) (f : α → α) (l : List α)
    (h : ∀ x ∈ l, p x = false) :
    l.map (fun x => if p x then f x else x) = l := by
  induction l with
  | nil => rfl
  | cons x xs ih =>
    simp only [List.map_cons, h x (by simp), if_neg Bool.false_ne_true,
      List.cons.injEq, true_and]
    exact ih (fun y hy => h y (by simp [hy]))

/-! ## Case-insensitive comparison -/

theorem ciEqL_iff (a b : Str) :
    ciEqL a b = true ↔ a.map Char.toLower = b.map Char.toLower := by
  simp [ciEqL]

theorem ciEqL_refl (a : Str) : ciEqL a a = true := by simp [ciEqL]

theorem ciEqL_length {a b : Str} (h : ciEqL a b = true) : a.length = b.length := by
  have := congrArg List.length ((ciEqL_iff a b).1 h)
  simpa using this

theorem ciPre_append (t s : Str) : ciPre t (t ++ s) = true := by
  simp [ciPre, take_len_app, ciEqL_refl]

theorem ciPre_cons_ne {c d : Char} (cs ds : List Char)
    (h : c.toLower ≠ d.toLower) : ciPre (c :: cs) (d :: ds) = false := by
  simp only [ciPre, List.length_cons, List.take_succ_cons, ciEqL, List.map_cons]
  rw [beq_eq_false_iff_ne]
  intro hEq
  injection hEq with h1 _
  exact h h1

theorem ciPre_nil {t : Str} (h : t ≠ []) : ciPre t [] = false := by
  cases t with
  | nil => exact absurd rfl h
  | cons c cs => simp [ciPre, ciEqL]

/-! ## `posAt` facts -/

theorem posAtGo_zero (text : Str) (b : Bool) (line col : Nat) :
    posAtGo text 0 b line col = (line, col) := by
  cases text <;> rfl

theorem posAt_zero (text : Str) : posAt text 0 = (0, 0) := by
  simp [posAt, posAtGo_zero]

theorem posAtGo_nl (n : Nat) (s : Str) (line : Nat) :
    posAtGo (List.replicate n '\n' ++ s) n false line 0 = (line + n, 0) := by
  induction n generalizing line with
  | zero => simp [posAtGo_zero]
  | succ m ih =>
    rw [List.replicate_succ, List.cons_append]
    show posAtGo (List.replicate m '\n' ++ s) m false (line+1) 0 = (line + (m+1), 0)
    rw [ih (line+1)]
    congr 1
    omega

theorem posAt_nl (n : Nat) (s : Str) :
    posAt (List.replicate n '\n' ++ s) n = (n, 0) := by
  have hlen : n ≤ (List.replicate n '\n' ++ s).length := by
    simp [List.length_append, List.length_replicate]
  rw [posAt, Nat.min_eq_left hlen]
  simpa using posAtGo_nl n s 0

theorem posAtGo_flat (s t : Str) (k : Nat) (line col : Nat)
    (hs : ∀ c ∈ s, c ≠ '\n' ∧ c ≠ '\r') (hk : k ≤ s.length) :
    posAtGo (s ++ t) k false line col = (line, col + k) := by
  induction s generalizing k col with
  | nil =>
    have : k = 0 := by simpa using hk
    subst this
    simp [posAtGo_zero]
  | cons c cs ih =>
    cases k with
    | zero => simp [posAtGo_zero]
    | succ m =>
      have hc := hs c (List.mem_cons_self c cs)
      rw [List.cons_append]
      show (if c = '\n' then _ else if c = '\r' then _ else
        posAtGo (cs ++ t) m false line (col+1)) = (line, col + (m+1))
      rw [if_neg hc.1, if_neg hc.2,
        ih m (col+1) (fun d hd => hs d (List.mem_cons_of_mem c hd)) (by simpa using hk)]
      congr 1
      omega

/-! ## Stepping lemmas for the CPS matchers -/

theorem matchRepPlus_none {α : Type} (unit : Nat → Option Nat) (k : Nat → Option α)
    (i fl : Nat) (h : unit i = none) : matchRepPlus unit k i (fl+1) = none := by
  simp [matchRepPlus, h]

theorem matchRepPlus_one {α : Type} (unit : Nat → Option Nat) (k : Nat → Option α)
    (i j fl : Nat) (h1 : unit i = some j) (hne : j ≠ i) (h2 : unit j = none) :
    matchRepPlus unit k i (fl+2) = k j := by
  show matchRepPlus unit k i (fl+1+1) = k j
  simp only [matchRepPlus, h1, if_neg hne, h2]
  rfl

theorem matchStar_none {α : Type} (unit : Nat → Option Nat) (k : Nat → Option α)
    (i fl : Nat) (h : unit i = none) : matchStar unit k i (fl+1) = k i := by
  simp [matchStar, h]

theorem matchStar_one {α : Type} (unit : Nat → Option Nat) (k : Nat → Option α)
    (i j fl : Nat) (h1 : unit i = some j) (hne : j ≠ i) (h2 : unit j = none) :
    matchStar unit k i (fl+2) = (k j <|> k i) := by
  show matchStar unit k i (fl+1+1) = (k j <|> k i)
  simp only [matchStar, h1, if_neg hne, h2]

theorem matchAltOnce_nomatch {α : Type} (alts : List Str) (text : Str)
    (k : Nat → Str → Option α) (i : Nat)
    (h : ∀ t ∈ alts, ciAt t text i = false) :
    matchAltOnce alts text k i = none := by
  induction alts with
  | nil => rfl
  | cons t ts ih =>
    show ((if ciAt t text i then k (i + t.length) ((text.drop i).take t.length)
          else none) <|> matchAltOnce ts text k i) = none
    rw [h t (List.mem_cons_self t ts), if_neg Bool.false_ne_true, orElse_none_left]
    exact ih (fun u hu => h u (List.mem_cons_of_mem t hu))

theorem matchAltOnce_first {α : Type} (alts : List Str) (text : Str)
    (k : Nat → Str → Option α) (i : Nat) (t0 : Str)
    (hk : ∀ j c, (k j c).isSome = true)
    (hf : alts.find? (fun t => ciAt t text i) = some t0) :
    matchAltOnce alts text k i = k (i + t0.length) ((text.drop i).take t0.length) := by
  induction alts with
  | nil => simp [List.find?] at hf
  | cons t ts ih =>
    by_cases hc : ciAt t text i = true
    · simp only [List.find?, hc] at hf
      injection hf with hf
      subst hf
      show ((if ciAt t text i then k (i + t.length) ((text.drop i).take t.length)
            else none) <|> matchAltOnce ts text k i) =
        k (i + t.length) ((text.drop i).take t.length)
      rw [if_pos hc]
      obtain ⟨v, hv⟩ := Option.isSome_iff_exists.1 (hk (i + t.length) ((text.drop i).take t.length))
      rw [hv, orElse_some_left]
    · have hc' : ciAt t text i = false := by
        cases hEq : ciAt t text i with
        | false => rfl
        | true => exact absurd hEq hc
      simp only [List.find?, hc'] at hf
      show ((if ciAt t text i then k (i + t.length) ((text.drop i).take t.length)
            else none) <|> matchAltOnce ts text k i) =
        k (i + t0.length) ((text.drop i).take t0.length)
      rw [hc', if_neg Bool.false_ne_true, orElse_none_left]
      exact ih hf

theorem matchAltPlusRest_isSome {α : Type} (alts : List Str) (text : Str)
    (k : Nat → Str → Option α) (hk : ∀ j c, (k j c).isSome = true)
    (i : Nat) (cap : Str) (fl : Nat) :
    (matchAltPlusRest alts text k i cap (fl+1)).isSome = true := by
  show ((matchAltOnce alts text
      (fun j c => if j = i then none else matchAltPlusRest alts text k j c fl) i)
    <|> k i cap).isSome = true
  exact orElse_isSome_right _ _ (hk i cap)

theorem matchAltPlusRest_stop {α : Type} (alts : List Str) (text : Str)
    (k : Nat → Str → Option α) (i : Nat) (cap : Str) (fl : Nat)
    (h : ∀ t ∈ alts, ciAt t text i = false) :
    matchAltPlusRest alts text k i cap (fl+1) = k i cap := by
  show ((matchAltOnce alts text
      (fun j c => if j = i then none else matchAltPlusRest alts text k j c fl) i)
    <|> k i cap) = k i cap
  rw [matchAltOnce_nomatch alts text _ i h, orElse_none_left]

theorem matchAltPlus_exact {α : Type} (alts : List Str) (text : Str)
    (k : Nat → Str → Option α) (i : Nat) (t0 : Str) (fl : Nat)
    (hk : ∀ j c, (k j c).isSome = true)
    (hf : alts.find? (fun t => ciAt t text i) = some t0)
    (hstop : ∀ t ∈ alts, ciAt t text (i + t0.length) = false) :
    matchAltPlus alts text k i (fl+2) =
      k (i + t0.length) ((text.drop i).take t0.length) := by
  show matchAltOnce alts text (fun j c => matchAltPlusRest alts text k j c (fl+1)) i =
    k (i + t0.length) ((text.drop i).take t0.length)
  rw [matchAltOnce_first alts text _ i t0
    (fun j c => matchAltPlusRest_isSome alts text k hk j c fl) hf]
  exact matchAltPlusRest_stop alts text k (i + t0.length) _ fl hstop

theorem find?_of_mem_pred {α : Type} (l : List α) (p : α → Bool) (a : α)
    (ha : a ∈ l) (hp : p a = true) :
    ∃ b, l.find? p = some b ∧ p b = true ∧ b ∈ l := by
  cases hfind : l.find? p with
  | none => exact absurd hp (by simpa using (List.find?_eq_none.1 hfind) a ha)
  | some b =>
    exact ⟨b, rfl, List.find?_some hfind, List.mem_of_find?_eq_some hfind⟩

/-! ## The single-line scan on the scenario document -/

theorem scenDoc_drop0 (D TAG rest : Str) (n : Nat) :
    (scenDoc D TAG rest n).drop n = D ++ ' ' :: (TAG ++ rest) := by
  have h := drop_len_app (List.replicate n '\n') (D ++ ' ' :: (TAG ++ rest))
  rwa [List.length_replicate] at h

theorem scenDoc_drop1 (D TAG rest : Str) (n : Nat) :
    (scenDoc D TAG rest n).drop (n + D.length) = ' ' :: (TAG ++ rest) := by
  have h : (scenDoc D TAG rest n).drop (n + D.length) =
      ((scenDoc D TAG rest n).drop n).drop D.length := by
    rw [List.drop_drop, Nat.add_comm]
  rw [h, scenDoc_drop0, drop_len_app]

theorem scenDoc_drop2 (D TAG rest : Str) (n : Nat) :
    (scenDoc D TAG rest n).drop (n + D.length + 1) = TAG ++ rest := by
  have h : (scenDoc D TAG rest n).drop (n + D.length + 1) =
      ((scenDoc D TAG rest n).drop (n + D.length)).drop 1 := by
    rw [List.drop_drop, Nat.add_comm]
  rw [h, scenDoc_drop1]
  rfl

theorem scenDoc_drop3 (D TAG rest : Str) (n : Nat) :
    (scenDoc D TAG rest n).drop (n + D.length + 1 + TAG.length) = rest := by
  have h : (scenDoc D TAG rest n).drop (n + D.length + 1 + TAG.length) =
      ((scenDoc D TAG rest n).drop (n + D.length + 1)).drop TAG.length := by
    rw [List.drop_drop, Nat.add_comm]
  rw [h, scenDoc_drop2, drop_len_app]

theorem scenDoc_length (D TAG rest : Str) (n : Nat) :
    (scenDoc D TAG rest n).length = n + D.length + 1 + TAG.length + rest.length := by
  simp [scenDoc]
  omega

theorem slTryAt_hit (D : Str) (alts : List Str) (TAG rest : Str) (n : Nat)
    (hD : D ≠ [])
    (hDs : ∀ c, D.head? = some c → c.toLower ≠ ' ')
    (hTne : TAG ≠ [])
    (hThead : ∀ c, TAG.head? = some c → c ≠ ' ' ∧ c ≠ '\t')
    (hmem : TAG ∈ alts)
    (hfirst : ∀ t ∈ alts, ciPre t (TAG ++ rest) = true → ciEqL t TAG = true)
    (hnos : ∀ t ∈ alts, ciPre t rest = false)
    (hline : ∀ c ∈ rest, c ≠ '\n' ∧ c ≠ '\r') :
    slTryAt D alts (scenDoc D TAG rest n) n =
      some ((scenDoc D TAG rest n).length, TAG, rest) := by
  obtain ⟨d, ds, hDeq⟩ : ∃ d ds, D = d :: ds := by
    cases D with
    | nil => exact absurd rfl hD
    | cons d ds => exact ⟨d, ds, rfl⟩
  obtain ⟨tc, tcs, hTeq⟩ : ∃ a as, TAG = a :: as := by
    cases TAG with
    | nil => exact absurd rfl hTne
    | cons a as => exact ⟨a, as, rfl⟩
  have hlen := scenDoc_length D TAG rest n
  obtain ⟨fl, hfl⟩ : ∃ fl, (scenDoc D TAG rest n).length + 1 = fl + 2 := by
    refine ⟨(scenDoc D TAG rest n).length - 1, ?_⟩
    omega
  -- delimiter repetitions: exactly one
  have hu1 : delimUnit D (scenDoc D TAG rest n) n = some (n + D.length) := by
    rw [delimUnit, if_pos]
    rw [ciAt, scenDoc_drop0]
    exact ciPre_append D _
  have hu2 : delimUnit D (scenDoc D TAG rest n) (n + D.length) = none := by
    rw [delimUnit, if_neg]
    rw [ciAt, scenDoc_drop1, hDeq]
    rw [ciPre_cons_ne ds _ (by simpa using hDs d (by rw [hDeq]; rfl))]
    exact Bool.false_ne_true
  have hne1 : n + D.length ≠ n := by
    rw [hDeq]
    simp
  -- whitespace: exactly the one separator space
  have hw1 : wsUnit (scenDoc D TAG rest n) (n + D.length) = some (n + D.length + 1) := by
    simp [wsUnit, scenDoc_drop1]
  have hw2 : wsUnit (scenDoc D TAG rest n) (n + D.length + 1) = none := by
    have hT := hThead tc (by rw [hTeq]; rfl)
    simp only [wsUnit, scenDoc_drop2, hTeq, List.cons_append]
    rw [if_neg]
    exact fun h => h.elim hT.1 hT.2
  have hne2 : n + D.length + 1 ≠ n + D.length := by omega
  -- the alternation: the first case-insensitively matching alternative
  have hciTAG : ciAt TAG (scenDoc D TAG rest n) (n + D.length + 1) = true := by
    rw [ciAt, scenDoc_drop2]
    exact ciPre_append TAG rest
  obtain ⟨t0, hf, hp0, hmem0⟩ :=
    find?_of_mem_pred alts (fun t => ciAt t (scenDoc D TAG rest n) (n + D.length + 1))
      TAG hmem hciTAG
  have hci0 : ciEqL t0 TAG = true := by
    refine hfirst t0 hmem0 ?_
    rw [ciAt, scenDoc_drop2] at hp0
    exact hp0
  have hlen0 : t0.length = TAG.length := ciEqL_length hci0
  have hstop : ∀ t ∈ alts,
      ciAt t (scenDoc D TAG rest n) (n + D.length + 1 + t0.length) = false := by
    intro t ht
    rw [hlen0, ciAt, scenDoc_drop3]
    exact hnos t ht
  -- the tail capture
  have hend : lineEndFrom (scenDoc D TAG rest n) (n + D.length + 1 + TAG.length) =
      (scenDoc D TAG rest n).length := by
    rw [lineEndFrom, scenDoc_drop3, takeWhile_all _ rest ?_]
    · omega
    · intro c hc
      have := hline c hc
      simp [this.1, this.2]
  -- assemble the whole attempt
  rw [slTryAt, hfl]
  rw [matchRepPlus_one _ _ n (n + D.length) fl hu1 hne1 hu2]
  rw [matchStar_one _ _ (n + D.length) (n + D.length + 1) fl hw1 hne2 hw2]
  rw [matchAltPlus_exact alts (scenDoc D TAG rest n)
    (fun j3 cap => some (lineEndFrom (scenDoc D TAG rest n) j3, cap,
      ((scenDoc D TAG rest n).drop j3).take (lineEndFrom (scenDoc D TAG rest n) j3 - j3)))
    (n + D.length + 1) t0 fl (fun j c => rfl) hf hstop]
  rw [hlen0, hend]
  have hcap : ((scenDoc D TAG rest n).drop (n + D.length + 1)).take TAG.length = TAG := by
    rw [scenDoc_drop2, take_len_app]
  rw [hcap]
  have htail : ((scenDoc D TAG rest n).drop (n + D.length + 1 + TAG.length)).take
      ((scenDoc D TAG rest n).length - (n + D.length + 1 + TAG.length)) = rest := by
    rw [scenDoc_drop3]
    have : (scenDoc D TAG rest n).length - (n + D.length + 1 + TAG.length) = rest.length := by
      omega
    rw [this, List.take_length]
  rw [htail, orElse_some_left]

theorem slTryAt_none (D : Str) (alts : List Str) (text : Str) (i : Nat)
    (h : ciAt D text i = false) : slTryAt D alts text i = none := by
  rw [slTryAt]
  exact matchRepPlus_none _ _ i text.length (by simp [delimUnit, h])

theorem slTryAt_scen_pre (D : Str) (alts : List Str) (TAG rest : Str) (n i : Nat)
    (hi : i < n) (hD : D ≠ [])
    (hDn : ∀ c, D.head? = some c → c.toLower ≠ '\n') :
    slTryAt D alts (scenDoc D TAG rest n) i = none := by
  obtain ⟨d, ds, hDeq⟩ : ∃ d ds, D = d :: ds := by
    cases D with
    | nil => exact absurd rfl hD
    | cons d ds => exact ⟨d, ds, rfl⟩
  refine slTryAt_none D alts _ i ?_
  have hsplit : List.replicate n '\n' =
      List.replicate i '\n' ++ List.replicate (n - i) '\n' := by
    rw [← List.replicate_add]
    congr 1
    omega
  have hdrop : (scenDoc D TAG rest n).drop i =
      List.replicate (n - i) '\n' ++ (D ++ ' ' :: (TAG ++ rest)) := by
    rw [scenDoc, hsplit, List.append_assoc]
    have h := drop_len_app (List.replicate i '\n')
      (List.replicate (n - i) '\n' ++ (D ++ ' ' :: (TAG ++ rest)))
    rwa [List.length_replicate] at h
  obtain ⟨m, hmodels⟩ : ∃ m, n - i = m + 1 := ⟨n - i - 1, by omega⟩
  rw [ciAt, hdrop, hmodels, List.replicate_succ, List.cons_append, hDeq]
  rw [ciPre_cons_ne ds _ (by simpa using hDn d (by rw [hDeq]; rfl))]

theorem slTryAt_scen_post (D : Str) (alts : List Str) (text : Str) (i : Nat)
    (hi : text.length ≤ i) (hD : D ≠ []) :
    slTryAt D alts text i = none := by
  refine slTryAt_none D alts text i ?_
  rw [ciAt, List.drop_eq_nil_of_le hi, ciPre_nil hD]

theorem slFindFrom_none (D : Str) (alts : List Str) (text : Str) :
    ∀ fl i, (∀ j, i ≤ j → slTryAt D alts text j = none) →
    slFindFrom D alts text i fl = none := by
  intro fl
  induction fl with
  | zero => intro i _; rfl
  | succ fl ih =>
    intro i h
    show (if i ≤ text.length then _ else none) = none
    by_cases hle : i ≤ text.length
    · rw [if_pos hle, h i le_rfl]
      exact ih (i+1) (fun j hj => h j (by omega))
    · rw [if_neg hle]

theorem slFindFrom_hit (D : Str) (alts : List Str) (text : Str) (m e : Nat)
    (g3 g4 : Str) (hm : m ≤ text.length)
    (hr : slTryAt D alts text m = some (e, g3, g4)) :
    ∀ fl i, i ≤ m → m - i < fl →
    (∀ j, i ≤ j → j < m → slTryAt D alts text j = none) →
    slFindFrom D alts text i fl = some ⟨m, e, g3, g4⟩ := by
  intro fl
  induction fl with
  | zero => intro i _ h2 _; omega
  | succ fl ih =>
    intro i h1 h2 h3
    by_cases heq : i = m
    · subst heq
      show (if i ≤ text.length then _ else none) = _
      rw [if_pos hm, hr]
    · have hlt : i < m := by omega
      show (if i ≤ text.length then _ else none) = _
      rw [if_pos (by omega : i ≤ text.length), h3 i le_rfl hlt]
      exact ih (i+1) (by omega) (by omega) (fun j hj1 hj2 => h3 j (by omega) hj2)

theorem slAllMatches_single (D : Str) (alts : List Str) (text : Str) (m e : Nat)
    (g3 g4 : Str)
    (hm : m ≤ text.length)
    (hr : slTryAt D alts text m = some (e, g3, g4))
    (hpre : ∀ j, j < m → slTryAt D alts text j = none)
    (hpost : ∀ j, e ≤ j → slTryAt D alts text j = none) :
    slAllMatches D alts text 0 (text.length + 2) = [⟨m, e, g3, g4⟩] := by
  have h1 := slFindFrom_hit D alts text m e g3 g4 hm hr (text.length + 2) 0
    (by omega) (by omega) (fun j _ hj2 => hpre j hj2)
  have h2 := slFindFrom_none D alts text (text.length + 2) e
    (fun j hj => hpost j hj)
  show slAllMatches D alts text 0 (text.length + 1 + 1) = _
  simp only [slAllMatches, h1, h2]

theorem slMatches_eq (st : ParserState) (text : Str) :
    slMatches st text =
      slAllMatches st.expressionDelim st.expressionAlts text 0 (text.length + 2) := rfl

theorem FindSingleLineComments_single (st : ParserState) (text : Str) (m : SLMatch)
    (h : slMatches st text = [m]) :
    FindSingleLineComments st text =
      if st.ignoreFirstLine ∧ (posAt text m.index).1 = 0 ∧ (posAt text m.index).2 = 0
      then st
      else { st with
             tags := pushRange st.tags m.tagText (posAt text m.index, posAt text m.stop) } := by
  rw [FindSingleLineComments, h]
  rfl

/-! ## `pushRange` and tag-list structure -/

theorem pushRange_eq_map (tags : List CommentTag) (g : Str) (r : Range)
    (h : (tags.filter (fun e => ciEqL e.tag g)).length ≤ 1) :
    pushRange tags g r =
      tags.map (fun e =>
        if ciEqL e.tag g then { e with ranges := e.ranges ++ [r] } else e) := by
  induction tags with
  | nil => rfl
  | cons t ts ih =>
    by_cases hc : ciEqL t.tag g = true
    · rw [List.filter_cons, if_pos hc] at h
      have hfil : (ts.filter (fun e => ciEqL e.tag g)) = [] := by
        refine List.length_eq_zero.1 ?_
        simp only [List.length_cons] at h
        omega
      have hts : ∀ e ∈ ts, ciEqL e.tag g = false := by
        intro e he
        cases hEq : ciEqL e.tag g with
        | false => rfl
        | true =>
          have hmem : e ∈ ts.filter (fun e => ciEqL e.tag g) :=
            List.mem_filter.2 ⟨he, hEq⟩
          rw [hfil] at hmem
          cases hmem
      show (if ciEqL t.tag g then { t with ranges := t.ranges ++ [r] } :: ts
            else t :: pushRange ts g r) = _
      rw [if_pos hc]
      simp only [List.map_cons, if_pos hc]
      rw [map_if_id _ _ ts hts]
    · have hc' : ciEqL t.tag g = false := by
        cases hEq : ciEqL t.tag g with
        | false => rfl
        | true => exact absurd hEq hc
      rw [List.filter_cons, if_neg (by simp [hc'])] at h
      show (if ciEqL t.tag g then { t with ranges := t.ranges ++ [r] } :: ts
            else t :: pushRange ts g r) = _
      rw [if_neg hc]
      simp only [List.map_cons, hc', if_neg Bool.false_ne_true]
      rw [ih h]

theorem pushRange_strip (tags : List CommentTag) (g : Str) (r : Range) :
    (pushRange tags g r).map (fun t => { t with ranges := [] }) =
      tags.map (fun t => { t with ranges := [] }) := by
  induction tags with
  | nil => rfl
  | cons t ts ih =>
    show ((if ciEqL t.tag g then { t with ranges := t.ranges ++ [r] } :: ts
          else t :: pushRange ts g r).map (fun t => { t with ranges := [] })) = _
    by_cases hc : ciEqL t.tag g = true
    · rw [if_pos hc]
      simp only [List.map_cons]
    · rw [if_neg hc]
      simp only [List.map_cons]
      rw [ih]

theorem strip_eq_self (tags : List CommentTag) (h : ∀ t ∈ tags, t.ranges = []) :
    tags.map (fun t => { t with ranges := [] }) = tags := by
  induction tags with
  | nil => rfl
  | cons t ts ih =>
    simp only [List.map_cons]
    rw [ih (fun u hu => h u (List.mem_cons_of_mem t hu))]
    have ht : t.ranges = [] := h t (List.mem_cons_self t ts)
    cases t
    simp only at ht
    simp [ht]

/-! ## `SetRegex`, `setDelimiter`, `Parser.new` structure -/

theorem SetRegex_exprDelim (st : ParserState) (lang : String) :
    (SetRegex st lang).expressionDelim = (setDelimiter st lang).delimiter := rfl

theorem SetRegex_exprAlts (st : ParserState) (lang : String) :
    (SetRegex st lang).expressionAlts =
      (setDelimiter st lang).tags.map (fun t => t.tag) := rfl

theorem SetRegex_delimiter (st : ParserState) (lang : String) :
    (SetRegex st lang).delimiter = (setDelimiter st lang).delimiter := rfl

theorem SetRegex_tags (st : ParserState) (lang : String) :
    (SetRegex st lang).tags = (setDelimiter st lang).tags := rfl

theorem SetRegex_supported (st : ParserState) (lang : String) :
    (SetRegex st lang).supportedLanguage = (setDelimiter st lang).supportedLanguage := rfl

theorem SetRegex_ignoreFirstLine (st : ParserState) (lang : String) :
    (SetRegex st lang).ignoreFirstLine = (setDelimiter st lang).ignoreFirstLine := rfl

theorem setDelimiter_tags (st : ParserState) (lang : String) :
    (setDelimiter st lang).tags = st.tags := by
  simp only [setDelimiter]
  split_ifs <;> rfl

theorem setDelimiter_classify (st : ParserState) (lang : String) :
    (setDelimiter st lang).supportedLanguage = false ∨
      delimOk (setDelimiter st lang).delimiter := by
  simp only [setDelimiter]
  split_ifs <;> first
    | (left; rfl)
    | (right; dsimp only; decide)

theorem supported_delimOk (st : ParserState) (lang : String)
    (h : (setDelimiter st lang).supportedLanguage = true) :
    delimOk (setDelimiter st lang).delimiter := by
  refine (setDelimiter_classify st lang).resolve_left ?_
  intro hf
  rw [h] at hf
  cases hf

theorem head?_mem {α : Type} {l : List α} {a : α} (h : l.head? = some a) : a ∈ l := by
  cases l with
  | nil => cases h
  | cons x xs =>
    injection h with h
    subst h
    exact List.mem_cons_self x xs

theorem new_tags_map (contrib : Contributions) :
    (Parser.new contrib).tags.map (fun t => t.tag) =
      contrib.tags.map (fun i => i.tag) := by
  simp [Parser.new, setTags, Function.comp]

theorem new_tags_ranges (contrib : Contributions) :
    ∀ t ∈ (Parser.new contrib).tags, t.ranges = [] := by
  simp [Parser.new, setTags]

theorem map_congr_mem {α β : Type} (l : List α) (f g : α → β)
    (h : ∀ a ∈ l, f a = g a) : l.map f = l.map g := by
  induction l with
  | nil => rfl
  | cons x xs ih =>
    simp only [List.map_cons]
    rw [h x (List.mem_cons_self x xs), ih (fun a ha => h a (List.mem_cons_of_mem x ha))]

theorem new_tags_filter (contrib : Contributions) (TAG : Str) :
    ((Parser.new contrib).tags.filter (fun e => ciEqL e.tag TAG)).length =
      ((contrib.tags.map (fun i => i.tag)).filter (fun t => ciEqL t TAG)).length := by
  simp only [Parser.new, setTags, List.filter_map, List.length_map]
  rfl

theorem setDelimiter_python (st : ParserState) :
    setDelimiter st "python" =
      { st with supportedLanguage := true, delimiter := "#".toList,
                ignoreFirstLine := true } := by
  simp only [setDelimiter]
  split_ifs <;> simp_all

/-- Full characterisation of the single-line scan on the scenario document
`n` newlines, delimiter, space, tag, rest — for any supported language and
any tag configuration subject to the non-interference hypotheses. -/
theorem scen_scan_full (contrib : Contributions) (lang : String)
    (TAG rest : Str) (n : Nat)
    (hsup : (SetRegex (Parser.new contrib) lang).supportedLanguage = true)
    (hmem : TAG ∈ contrib.tags.map (fun i => i.tag))
    (hTne : TAG ≠ [])
    (hThead : ∀ c, TAG.head? = some c → c ≠ ' ' ∧ c ≠ '\t')
    (hfirst : ∀ t ∈ contrib.tags.map (fun i => i.tag),
      ciPre t (TAG ++ rest) = true → ciEqL t TAG = true)
    (hnos : ∀ t ∈ contrib.tags.map (fun i => i.tag), ciPre t rest = false)
    (hline : ∀ c ∈ rest, c ≠ '\n' ∧ c ≠ '\r')
    (huniq : ((contrib.tags.map (fun i => i.tag)).filter
      (fun t => ciEqL t TAG)).length ≤ 1) :
    slMatches (SetRegex (Parser.new contrib) lang)
        (scenDoc (SetRegex (Parser.new contrib) lang).delimiter TAG rest n) =
      [⟨n, (scenDoc (SetRegex (Parser.new contrib) lang).delimiter TAG rest n).length,
        TAG, rest⟩] ∧
    (n = 0 → (SetRegex (Parser.new contrib) lang).ignoreFirstLine = true →
      (FindSingleLineComments (SetRegex (Parser.new contrib) lang)
        (scenDoc (SetRegex (Parser.new contrib) lang).delimiter TAG rest n)).tags =
      (SetRegex (Parser.new contrib) lang).tags) ∧
    (1 ≤ n →
      (FindSingleLineComments (SetRegex (Parser.new contrib) lang)
        (scenDoc (SetRegex (Parser.new contrib) lang).delimiter TAG rest n)).tags =
      (SetRegex (Parser.new contrib) lang).tags.map (fun e =>
        if ciEqL e.tag TAG then
          { e with ranges :=
            [(posAt (scenDoc (SetRegex (Parser.new contrib) lang).delimiter TAG rest n) n,
              posAt (scenDoc (SetRegex (Parser.new contrib) lang).delimiter TAG rest n)
                (scenDoc (SetRegex (Parser.new contrib) lang).delimiter TAG rest n).length)] }
        else e)) := by
  have hok : delimOk (setDelimiter (Parser.new contrib) lang).delimiter :=
    supported_delimOk (Parser.new contrib) lang (by rwa [SetRegex_supported] at hsup)
  set D := (SetRegex (Parser.new contrib) lang).delimiter with hDdef
  have hD : D ≠ [] := hok.1
  have hDchars := hok.2
  have hDs : ∀ c, D.head? = some c → c.toLower ≠ ' ' := by
    intro c hc
    have h := hDchars c (head?_mem hc)
    rw [h.1]
    exact h.2.2.2.1
  have hDn : ∀ c, D.head? = some c → c.toLower ≠ '\n' := by
    intro c hc
    have h := hDchars c (head?_mem hc)
    rw [h.1]
    exact h.2.1
  have halts : (SetRegex (Parser.new contrib) lang).expressionAlts =
      contrib.tags.map (fun i => i.tag) := by
    rw [SetRegex_exprAlts, setDelimiter_tags, new_tags_map]
  have htags : (SetRegex (Parser.new contrib) lang).tags = (Parser.new contrib).tags := by
    rw [SetRegex_tags, setDelimiter_tags]
  -- the match list
  have hA : slMatches (SetRegex (Parser.new contrib) lang) (scenDoc D TAG rest n) =
      [⟨n, (scenDoc D TAG rest n).length, TAG, rest⟩] := by
    rw [slMatches_eq, SetRegex_exprDelim, ← SetRegex_delimiter, ← hDdef, halts]
    refine slAllMatches_single D (contrib.tags.map (fun i => i.tag))
      (scenDoc D TAG rest n) n (scenDoc D TAG rest n).length TAG rest ?_ ?_ ?_ ?_
    · have := scenDoc_length D TAG rest n
      omega
    · exact slTryAt_hit D (contrib.tags.map (fun i => i.tag)) TAG rest n hD hDs hTne
        hThead hmem hfirst hnos hline
    · intro j hj
      exact slTryAt_scen_pre D _ TAG rest n j hj hD hDn
    · intro j hj
      exact slTryAt_scen_post D _ _ j hj hD
  refine ⟨hA, ?_, ?_⟩
  · -- n = 0 with the first-line skip: nothing is appended
    intro hn hif
    subst hn
    rw [FindSingleLineComments_single _ _ _ hA]
    rw [if_pos]
    constructor
    · exact hif
    · rw [posAt_zero]
      exact ⟨rfl, rfl⟩
  · -- n ≥ 1: the single match is appended to the ci-matching tag
    intro hn
    rw [FindSingleLineComments_single _ _ _ hA]
    have hpos : posAt (scenDoc D TAG rest n) n = (n, 0) := posAt_nl n _
    rw [if_neg]
    · show pushRange (SetRegex (Parser.new contrib) lang).tags TAG
        (posAt (scenDoc D TAG rest n) n, posAt (scenDoc D TAG rest n) (scenDoc D TAG rest n).length) = _
      have huniq' : ((SetRegex (Parser.new contrib) lang).tags.filter
          (fun e => ciEqL e.tag TAG)).length ≤ 1 := by
        rw [htags, new_tags_filter]
        exact huniq
      rw [pushRange_eq_map _ _ _ huniq']
      refine map_congr_mem _ _ _ ?_
      intro e he
      have hr : e.ranges = [] := by
        refine new_tags_ranges contrib e ?_
        rwa [htags] at he
      by_cases hc : ciEqL e.tag TAG = true
      · rw [if_pos hc, if_pos hc, hr]
        rfl
      · rw [if_neg hc, if_neg hc]
    · rw [hpos]
      simp only [not_and]
      intro _ h0
      omega

/-! ## Claim theorems: the single-line scan -/

theorem head?_ne_forall (TAG : Str)
    (h : TAG.head? ≠ some ' ' ∧ TAG.head? ≠ some '\t') :
    ∀ c, TAG.head? = some c → c ≠ ' ' ∧ c ≠ '\t' := by
  intro c hc
  constructor
  · intro he
    rw [he] at hc
    exact h.1 hc
  · intro he
    rw [he] at hc
    exact h.2 hc

/-- C1: for every supported language (delimiter `D` resolved by `SetRegex`
from the language id) and every configured tag `TAG` — matched
case-insensitively, not starting with blank space, and not interfering with
the other configured tags — scanning a document containing the line
`D TAG rest` (preceded by a newline) yields exactly one single-line match:
it is attributed to the tag whose literal is case-insensitively `TAG`
(capture 3 is the literal occurrence `TAG`), the trailing text `rest` is
captured as the remainder of the line (capture 4), and exactly that tag's
collection receives the one range. -/
theorem C1_single_line_match (contrib : Contributions) (lang : String)
    (TAG rest : Str)
    (hsup : (SetRegex (Parser.new contrib) lang).supportedLanguage = true)
    (hmem : TAG ∈ contrib.tags.map (fun i => i.tag))
    (hTne : TAG ≠ [])
    (hThead : TAG.head? ≠ some ' ' ∧ TAG.head? ≠ some '\t')
    (hfirst : ∀ t ∈ contrib.tags.map (fun i => i.tag),
      ciPre t (TAG ++ rest) = true → ciEqL t TAG = true)
    (hnos : ∀ t ∈ contrib.tags.map (fun i => i.tag), ciPre t rest = false)
    (hline : ∀ c ∈ rest, c ≠ '\n' ∧ c ≠ '\r')
    (huniq : ((contrib.tags.map (fun i => i.tag)).filter
      (fun t => ciEqL t TAG)).length ≤ 1) :
    slMatches (SetRegex (Parser.new contrib) lang)
        (scenDoc (SetRegex (Parser.new contrib) lang).delimiter TAG rest 1) =
      [⟨1, (scenDoc (SetRegex (Parser.new contrib) lang).delimiter TAG rest 1).length,
        TAG, rest⟩] ∧
    (FindSingleLineComments (SetRegex (Parser.new contrib) lang)
        (scenDoc (SetRegex (Parser.new contrib) lang).delimiter TAG rest 1)).tags =
      (SetRegex (Parser.new contrib) lang).tags.map (fun e =>
        if ciEqL e.tag TAG then
          { e with ranges :=
            [(posAt (scenDoc (SetRegex (Parser.new contrib) lang).delimiter TAG rest 1) 1,
              posAt (scenDoc (SetRegex (Parser.new contrib) lang).delimiter TAG rest 1)
                (scenDoc (SetRegex (Parser.new contrib) lang).delimiter TAG rest 1).length)] }
        else e) := by
  obtain ⟨h1, _, h3⟩ := scen_scan_full contrib lang TAG rest 1 hsup hmem hTne
    (head?_ne_forall TAG hThead) hfirst hnos hline huniq
  exact ⟨h1, h3 le_rfl⟩

theorem C1_single_line_match_witness :
    ((SetRegex (Parser.new ⟨true, false,
        [⟨"TODO".toList, "red".toList, false⟩, ⟨"!".toList, "blue".toList, true⟩]⟩)
      "javascript").supportedLanguage = true) ∧
    ("TODO".toList ∈ ([⟨"TODO".toList, "red".toList, false⟩,
        ⟨"!".toList, "blue".toList, true⟩] : List TagInput).map (fun i => i.tag)) ∧
    ("TODO".toList ≠ []) ∧
    ("TODO".toList.head? ≠ some ' ' ∧ "TODO".toList.head? ≠ some '\t') ∧
    (∀ t ∈ ([⟨"TODO".toList, "red".toList, false⟩,
        ⟨"!".toList, "blue".toList, true⟩] : List TagInput).map (fun i => i.tag),
      ciPre t ("TODO".toList ++ " x".toList) = true → ciEqL t "TODO".toList = true) ∧
    (∀ t ∈ ([⟨"TODO".toList, "red".toList, false⟩,
        ⟨"!".toList, "blue".toList, true⟩] : List TagInput).map (fun i => i.tag),
      ciPre t " x".toList = false) ∧
    (∀ c ∈ " x".toList, c ≠ '\n' ∧ c ≠ '\r') ∧
    ((([⟨"TODO".toList, "red".toList, false⟩,
        ⟨"!".toList, "blue".toList, true⟩] : List TagInput).map (fun i => i.tag)).filter
      (fun t => ciEqL t "TODO".toList)).length ≤ 1 ∧
    (slMatches (SetRegex (Parser.new ⟨true, false,
        [⟨"TODO".toList, "red".toList, false⟩, ⟨"!".toList, "blue".toList, true⟩]⟩)
        "javascript")
        (scenDoc (SetRegex (Parser.new ⟨true, false,
          [⟨"TODO".toList, "red".toList, false⟩, ⟨"!".toList, "blue".toList, true⟩]⟩)
          "javascript").delimiter "TODO".toList " x".toList 1) =
      [⟨1, (scenDoc (SetRegex (Parser.new ⟨true, false,
          [⟨"TODO".toList, "red".toList, false⟩, ⟨"!".toList, "blue".toList, true⟩]⟩)
          "javascript").delimiter "TODO".toList " x".toList 1).length,
        "TODO".toList, " x".toList⟩] ∧
    (FindSingleLineComments (SetRegex (Parser.new ⟨true, false,
        [⟨"TODO".toList, "red".toList, false⟩, ⟨"!".toList, "blue".toList, true⟩]⟩)
        "javascript")
        (scenDoc (SetRegex (Parser.new ⟨true, false,
          [⟨"TODO".toList, "red".toList, false⟩, ⟨"!".toList, "blue".toList, true⟩]⟩)
          "javascript").delimiter "TODO".toList " x".toList 1)).tags =
      (SetRegex (Parser.new ⟨true, false,
        [⟨"TODO".toList, "red".toList, false⟩, ⟨"!".toList, "blue".toList, true⟩]⟩)
        "javascript").tags.map (fun e =>
        if ciEqL e.tag "TODO".toList then
          { e with ranges :=
            [(posAt (scenDoc (SetRegex (Parser.new ⟨true, false,
                [⟨"TODO".toList, "red".toList, false⟩, ⟨"!".toList, "blue".toList, true⟩]⟩)
                "javascript").delimiter "TODO".toList " x".toList 1) 1,
              posAt (scenDoc (SetRegex (Parser.new ⟨true, false,
                [⟨"TODO".toList, "red".toList, false⟩, ⟨"!".toList, "blue".toList, true⟩]⟩)
                "javascript").delimiter "TODO".toList " x".toList 1)
                (scenDoc (SetRegex (Parser.new ⟨true, false,
                  [⟨"TODO".toList, "red".toList, false⟩, ⟨"!".toList, "blue".toList, true⟩]⟩)
                  "javascript").delimiter "TODO".toList " x".toList 1).length)] }
        else e)) :=
  ⟨by decide, by decide, by decide, by decide, by decide, by decide, by decide, by decide,
   C1_single_line_match
     ⟨true, false, [⟨"TODO".toList, "red".toList, false⟩, ⟨"!".toList, "blue".toList, true⟩]⟩
     "javascript" "TODO".toList " x".toList
     (by decide) (by decide) (by decide) (by decide) (by decide) (by decide) (by decide)
     (by decide)⟩

/-- C6: with the first-line-skip flag set (the `python` profile), a
single-line comment matching the expression at document offset 0 (line 0,
character 0) is found by the regex but appends no range at all (the tag
collections are unchanged), while the identical comment on line 2 (the same
line preceded by two newlines) appends its range to the matching tag. -/
theorem C6_first_line_skip (contrib : Contributions) (TAG rest : Str)
    (hmem : TAG ∈ contrib.tags.map (fun i => i.tag))
    (hTne : TAG ≠ [])
    (hThead : TAG.head? ≠ some ' ' ∧ TAG.head? ≠ some '\t')
    (hfirst : ∀ t ∈ contrib.tags.map (fun i => i.tag),
      ciPre t (TAG ++ rest) = true → ciEqL t TAG = true)
    (hnos : ∀ t ∈ contrib.tags.map (fun i => i.tag), ciPre t rest = false)
    (hline : ∀ c ∈ rest, c ≠ '\n' ∧ c ≠ '\r')
    (huniq : ((contrib.tags.map (fun i => i.tag)).filter
      (fun t => ciEqL t TAG)).length ≤ 1) :
    (SetRegex (Parser.new contrib) "python").ignoreFirstLine = true ∧
    slMatches (SetRegex (Parser.new contrib) "python")
        (scenDoc (SetRegex (Parser.new contrib) "python").delimiter TAG rest 0) =
      [⟨0, (scenDoc (SetRegex (Parser.new contrib) "python").delimiter TAG rest 0).length,
        TAG, rest⟩] ∧
    (FindSingleLineComments (SetRegex (Parser.new contrib) "python")
        (scenDoc (SetRegex (Parser.new contrib) "python").delimiter TAG rest 0)).tags =
      (SetRegex (Parser.new contrib) "python").tags ∧
    (FindSingleLineComments (SetRegex (Parser.new contrib) "python")
        (scenDoc (SetRegex (Parser.new contrib) "python").delimiter TAG rest 2)).tags =
      (SetRegex (Parser.new contrib) "python").tags.map (fun e =>
        if ciEqL e.tag TAG then
          { e with ranges :=
            [(posAt (scenDoc (SetRegex (Parser.new contrib) "python").delimiter TAG rest 2) 2,
              posAt (scenDoc (SetRegex (Parser.new contrib) "python").delimiter TAG rest 2)
                (scenDoc (SetRegex (Parser.new contrib) "python").delimiter TAG rest 2).length)] }
        else e) := by
  have hsup : (SetRegex (Parser.new contrib) "python").supportedLanguage = true := by
    rw [SetRegex_supported, setDelimiter_python]
  have hif : (SetRegex (Parser.new contrib) "python").ignoreFirstLine = true := by
    rw [SetRegex_ignoreFirstLine, setDelimiter_python]
  obtain ⟨h1, h2, _⟩ := scen_scan_full contrib "python" TAG rest 0 hsup hmem hTne
    (head?_ne_forall TAG hThead) hfirst hnos hline huniq
  obtain ⟨_, _, h3⟩ := scen_scan_full contrib "python" TAG rest 2 hsup hmem hTne
    (head?_ne_forall TAG hThead) hfirst hnos hline huniq
  exact ⟨hif, h1, h2 rfl hif, h3 (by omega)⟩

theorem C6_first_line_skip_witness :
    (("TODO".toList ∈ ([⟨"TODO".toList, "red".toList, false⟩] : List TagInput).map
        (fun i => i.tag)) ∧
    ("TODO".toList ≠ []) ∧
    ("TODO".toList.head? ≠ some ' ' ∧ "TODO".toList.head? ≠ some '\t') ∧
    (∀ t ∈ ([⟨"TODO".toList, "red".toList, false⟩] : List TagInput).map (fun i => i.tag),
      ciPre t ("TODO".toList ++ " x".toList) = true → ciEqL t "TODO".toList = true) ∧
    (∀ t ∈ ([⟨"TODO".toList, "red".toList, false⟩] : List TagInput).map (fun i => i.tag),
      ciPre t " x".toList = false) ∧
    (∀ c ∈ " x".toList, c ≠ '\n' ∧ c ≠ '\r') ∧
    ((([⟨"TODO".toList, "red".toList, false⟩] : List TagInput).map (fun i => i.tag)).filter
      (fun t => ciEqL t "TODO".toList)).length ≤ 1) ∧
    ((SetRegex (Parser.new ⟨true, false, [⟨"TODO".toList, "red".toList, false⟩]⟩)
        "python").ignoreFirstLine = true ∧
      slMatches (SetRegex (Parser.new ⟨true, false, [⟨"TODO".toList, "red".toList, false⟩]⟩)
          "python")
          (scenDoc (SetRegex (Parser.new ⟨true, false, [⟨"TODO".toList, "red".toList, false⟩]⟩)
            "python").delimiter "TODO".toList " x".toList 0) =
        [⟨0, (scenDoc (SetRegex (Parser.new ⟨true, false, [⟨"TODO".toList, "red".toList, false⟩]⟩)
            "python").delimiter "TODO".toList " x".toList 0).length,
          "TODO".toList, " x".toList⟩] ∧
      (FindSingleLineComments
          (SetRegex (Parser.new ⟨true, false, [⟨"TODO".toList, "red".toList, false⟩]⟩)
            "python")
          (scenDoc (SetRegex (Parser.new ⟨true, false, [⟨"TODO".toList, "red".toList, false⟩]⟩)
            "python").delimiter "TODO".toList " x".toList 0)).tags =
        (SetRegex (Parser.new ⟨true, false, [⟨"TODO".toList, "red".toList, false⟩]⟩)
          "python").tags ∧
      (FindSingleLineComments
          (SetRegex (Parser.new ⟨true, false, [⟨"TODO".toList, "red".toList, false⟩]⟩)
            "python")
          (scenDoc (SetRegex (Parser.new ⟨true, false, [⟨"TODO".toList, "red".toList, false⟩]⟩)
            "python").delimiter "TODO".toList " x".toList 2)).tags =
        (SetRegex (Parser.new ⟨true, false, [⟨"TODO".toList, "red".toList, false⟩]⟩)
          "python").tags.map (fun e =>
          if ciEqL e.tag "TODO".toList then
            { e with ranges :=
              [(posAt (scenDoc (SetRegex (Parser.new
                  ⟨true, false, [⟨"TODO".toList, "red".toList, false⟩]⟩)
                  "python").delimiter "TODO".toList " x".toList 2) 2,
                posAt (scenDoc (SetRegex (Parser.new
                  ⟨true, false, [⟨"TODO".toList, "red".toList, false⟩]⟩)
                  "python").delimiter "TODO".toList " x".toList 2)
                  (scenDoc (SetRegex (Parser.new
                    ⟨true, false, [⟨"TODO".toList, "red".toList, false⟩]⟩)
                    "python").delimiter "TODO".toList " x".toList 2).length)] }
          else e)) :=
  ⟨⟨by decide, by decide, by decide, by decide, by decide, by decide, by decide⟩,
   C6_first_line_skip ⟨true, false, [⟨"TODO".toList, "red".toList, false⟩]⟩
     "TODO".toList " x".toList
     (by decide) (by decide) (by decide) (by decide) (by decide) (by decide) (by decide)⟩

/-- C10: the range appended for a single-line match spans the entire regex
match, not just the tag: the one match on `\n D TAG rest` has
`match.index = 1` (the first character of the delimiter) and
`match.index + match[0].length = doc.length`, the position pushed as range
start is `(1, 0)` — the delimiter's first character, strictly before the
tag literal's position `(1, D.length + 1)` — and the pushed range runs from
there to the end of the matched text, so the delimiter and the whitespace
before the tag are inside the styled range. -/
theorem C10_range_spans_whole_match (contrib : Contributions) (lang : String)
    (TAG rest : Str)
    (hsup : (SetRegex (Parser.new contrib) lang).supportedLanguage = true)
    (hmem : TAG ∈ contrib.tags.map (fun i => i.tag))
    (hTne : TAG ≠ [])
    (hThead : TAG.head? ≠ some ' ' ∧ TAG.head? ≠ some '\t')
    (hfirst : ∀ t ∈ contrib.tags.map (fun i => i.tag),
      ciPre t (TAG ++ rest) = true → ciEqL t TAG = true)
    (hnos : ∀ t ∈ contrib.tags.map (fun i => i.tag), ciPre t rest = false)
    (hline : ∀ c ∈ rest, c ≠ '\n' ∧ c ≠ '\r')
    (huniq : ((contrib.tags.map (fun i => i.tag)).filter
      (fun t => ciEqL t TAG)).length ≤ 1) :
    slMatches (SetRegex (Parser.new contrib) lang)
        (scenDoc (SetRegex (Parser.new contrib) lang).delimiter TAG rest 1) =
      [⟨1, (scenDoc (SetRegex (Parser.new contrib) lang).delimiter TAG rest 1).length,
        TAG, rest⟩] ∧
    ciAt (SetRegex (Parser.new contrib) lang).delimiter
      (scenDoc (SetRegex (Parser.new contrib) lang).delimiter TAG rest 1) 1 = true ∧
    posAt (scenDoc (SetRegex (Parser.new contrib) lang).delimiter TAG rest 1) 1 = (1, 0) ∧
    posAt (scenDoc (SetRegex (Parser.new contrib) lang).delimiter TAG rest 1)
      (1 + (SetRegex (Parser.new contrib) lang).delimiter.length + 1) =
      (1, (SetRegex (Parser.new contrib) lang).delimiter.length + 1) ∧
    (FindSingleLineComments (SetRegex (Parser.new contrib) lang)
        (scenDoc (SetRegex (Parser.new contrib) lang).delimiter TAG rest 1)).tags =
      (SetRegex (Parser.new contrib) lang).tags.map (fun e =>
        if ciEqL e.tag TAG then
          { e with ranges :=
            [(posAt (scenDoc (SetRegex (Parser.new contrib) lang).delimiter TAG rest 1) 1,
              posAt (scenDoc (SetRegex (Parser.new contrib) lang).delimiter TAG rest 1)
                (scenDoc (SetRegex (Parser.new contrib) lang).delimiter TAG rest 1).length)] }
        else e) := by
  have hok : delimOk (setDelimiter (Parser.new contrib) lang).delimiter :=
    supported_delimOk (Parser.new contrib) lang (by rwa [SetRegex_supported] at hsup)
  set D := (SetRegex (Parser.new contrib) lang).delimiter with hDdef
  have hDok : delimOk D := by rw [hDdef, SetRegex_delimiter]; exact hok
  obtain ⟨h1, _, h3⟩ := scen_scan_full contrib lang TAG rest 1 hsup hmem hTne
    (head?_ne_forall TAG hThead) hfirst hnos hline huniq
  refine ⟨h1, ?_, ?_, ?_, h3 le_rfl⟩
  · rw [ciAt]
    have hdrop := scenDoc_drop0 D TAG rest 1
    rw [hdrop]
    exact ciPre_append D _
  · exact posAt_nl 1 _
  · have hlen := scenDoc_length D TAG rest 1
    have hTlen : 1 ≤ TAG.length := by
      cases TAG with
      | nil => exact absurd rfl hTne
      | cons a as => simp
    have hmin : min (1 + D.length + 1) (scenDoc D TAG rest 1).length =
        1 + D.length + 1 := by omega
    rw [posAt, hmin]
    have hoff : 1 + D.length + 1 = (D.length + 1) + 1 := by omega
    rw [hoff]
    show posAtGo ('\n' :: (D ++ ' ' :: (TAG ++ rest))) ((D.length + 1) + 1) false 0 0 =
      (1, D.length + 1)
    show posAtGo (D ++ ' ' :: (TAG ++ rest)) (D.length + 1) false 1 0 = (1, D.length + 1)
    have hS : D ++ ' ' :: (TAG ++ rest) = (D ++ [' ']) ++ (TAG ++ rest) := by simp
    rw [hS]
    have hchars : ∀ c ∈ D ++ [' '], c ≠ '\n' ∧ c ≠ '\r' := by
      intro c hc
      rcases List.mem_append.1 hc with hcD | hcs
      · have := hDok.2 c hcD
        exact ⟨this.2.1, this.2.2.1⟩
      · simp at hcs
        subst hcs
        exact ⟨by decide, by decide⟩
    have hklen : D.length + 1 ≤ (D ++ [' ']).length := by simp
    have := posAtGo_flat (D ++ [' ']) (TAG ++ rest) (D.length + 1) 1 0 hchars hklen
    simpa using this

theorem C10_range_spans_whole_match_witness :
    ((SetRegex (Parser.new ⟨true, false,
        [⟨"TODO".toList, "red".toList, false⟩, ⟨"!".toList, "blue".toList, true⟩]⟩)
      "javascript").supportedLanguage = true) ∧
    ("!".toList ∈ ([⟨"TODO".toList, "red".toList, false⟩,
        ⟨"!".toList, "blue".toList, true⟩] : List TagInput).map (fun i => i.tag)) ∧
    ("!".toList ≠ []) ∧
    ("!".toList.head? ≠ some ' ' ∧ "!".toList.head? ≠ some '\t') ∧
    (∀ t ∈ ([⟨"TODO".toList, "red".toList, false⟩,
        ⟨"!".toList, "blue".toList, true⟩] : List TagInput).map (fun i => i.tag),
      ciPre t ("!".toList ++ " urgent".toList) = true → ciEqL t "!".toList = true) ∧
    (∀ t ∈ ([⟨"TODO".toList, "red".toList, false⟩,
        ⟨"!".toList, "blue".toList, true⟩] : List TagInput).map (fun i => i.tag),
      ciPre t " urgent".toList = false) ∧
    (∀ c ∈ " urgent".toList, c ≠ '\n' ∧ c ≠ '\r') ∧
    ((([⟨"TODO".toList, "red".toList, false⟩,
        ⟨"!".toList, "blue".toList, true⟩] : List TagInput).map (fun i => i.tag)).filter
      (fun t => ciEqL t "!".toList)).length ≤ 1 ∧
    (slMatches (SetRegex (Parser.new ⟨true, false,
        [⟨"TODO".toList, "red".toList, false⟩, ⟨"!".toList, "blue".toList, true⟩]⟩)
        "javascript")
        (scenDoc (SetRegex (Parser.new ⟨true, false,
          [⟨"TODO".toList, "red".toList, false⟩, ⟨"!".toList, "blue".toList, true⟩]⟩)
          "javascript").delimiter "!".toList " urgent".toList 1) =
      [⟨1, (scenDoc (SetRegex (Parser.new ⟨true, false,
          [⟨"TODO".toList, "red".toList, false⟩, ⟨"!".toList, "blue".toList, true⟩]⟩)
          "javascript").delimiter "!".toList " urgent".toList 1).length,
        "!".toList, " urgent".toList⟩] ∧
    ciAt (SetRegex (Parser.new ⟨true, false,
        [⟨"TODO".toList, "red".toList, false⟩, ⟨"!".toList, "blue".toList, true⟩]⟩)
        "javascript").delimiter
      (scenDoc (SetRegex (Parser.new ⟨true, false,
        [⟨"TODO".toList, "red".toList, false⟩, ⟨"!".toList, "blue".toList, true⟩]⟩)
        "javascript").delimiter "!".toList " urgent".toList 1) 1 = true ∧
    posAt (scenDoc (SetRegex (Parser.new ⟨true, false,
        [⟨"TODO".toList, "red".toList, false⟩, ⟨"!".toList, "blue".toList, true⟩]⟩)
        "javascript").delimiter "!".toList " urgent".toList 1) 1 = (1, 0) ∧
    posAt (scenDoc (SetRegex (Parser.new ⟨true, false,
        [⟨"TODO".toList, "red".toList, false⟩, ⟨"!".toList, "blue".toList, true⟩]⟩)
        "javascript").delimiter "!".toList " urgent".toList 1)
      (1 + (SetRegex (Parser.new ⟨true, false,
        [⟨"TODO".toList, "red".toList, false⟩, ⟨"!".toList, "blue".toList, true⟩]⟩)
        "javascript").delimiter.length + 1) =
      (1, (SetRegex (Parser.new ⟨true, false,
        [⟨"TODO".toList, "red".toList, false⟩, ⟨"!".toList, "blue".toList, true⟩]⟩)
        "javascript").delimiter.length + 1) ∧
    (FindSingleLineComments (SetRegex (Parser.new ⟨true, false,
        [⟨"TODO".toList, "red".toList, false⟩, ⟨"!".toList, "blue".toList, true⟩]⟩)
        "javascript")
        (scenDoc (SetRegex (Parser.new ⟨true, false,
          [⟨"TODO".toList, "red".toList, false⟩, ⟨"!".toList, "blue".toList, true⟩]⟩)
          "javascript").delimiter "!".toList " urgent".toList 1)).tags =
      (SetRegex (Parser.new ⟨true, false,
        [⟨"TODO".toList, "red".toList, false⟩, ⟨"!".toList, "blue".toList, true⟩]⟩)
        "javascript").tags.map (fun e =>
        if ciEqL e.tag "!".toList then
          { e with ranges :=
            [(posAt (scenDoc (SetRegex (Parser.new ⟨true, false,
                [⟨"TODO".toList, "red".toList, false⟩, ⟨"!".toList, "blue".toList, true⟩]⟩)
                "javascript").delimiter "!".toList " urgent".toList 1) 1,
              posAt (scenDoc (SetRegex (Parser.new ⟨true, false,
                [⟨"TODO".toList, "red".toList, false⟩, ⟨"!".toList, "blue".toList, true⟩]⟩)
                "javascript").delimiter "!".toList " urgent".toList 1)
                (scenDoc (SetRegex (Parser.new ⟨true, false,
                  [⟨"TODO".toList, "red".toList, false⟩, ⟨"!".toList, "blue".toList, true⟩]⟩)
                  "javascript").delimiter "!".toList " urgent".toList 1).length)] }
        else e)) :=
  ⟨by decide, by decide, by decide, by decide, by decide, by decide, by decide, by decide,
   C10_range_spans_whole_match
     ⟨true, false, [⟨"TODO".toList, "red".toList, false⟩, ⟨"!".toList, "blue".toList, true⟩]⟩
     "javascript" "!".toList " urgent".toList
     (by decide) (by decide) (by decide) (by decide) (by decide) (by decide) (by decide)
     (by decide)⟩

/-! ## Claim theorems: resolver state, tie-break, flush -/

/-- C3 (code-bug evidence): after resolving "javascript" (a `//`-family
language) with the global multiline flag on and then resolving "python"
(`#`-family, not the infrastructure exception), `highlightMultilineComments`
is still `true` — `setDelimiter` never resets it, so the claimed invariant
fails across resolver call sequences — although a single resolution of
"python" from the fresh state leaves it `false`, and the resolved delimiter
after the sequence is python's `#`. -/
theorem C3_multiline_flag_stale :
    (setDelimiter (setDelimiter (Parser.new ⟨true, false,
        [⟨"TODO".toList, "red".toList, false⟩]⟩) "javascript")
      "python").highlightMultilineComments = true ∧
    (setDelimiter (Parser.new ⟨true, false,
        [⟨"TODO".toList, "red".toList, false⟩]⟩)
      "python").highlightMultilineComments = false ∧
    (setDelimiter (setDelimiter (Parser.new ⟨true, false,
        [⟨"TODO".toList, "red".toList, false⟩]⟩) "javascript")
      "python").delimiter = "#".toList ∧
    (setDelimiter (setDelimiter (Parser.new ⟨true, false,
        [⟨"TODO".toList, "red".toList, false⟩]⟩) "javascript")
      "python").supportedLanguage = true := by
  decide

/-- C5 (code-bug evidence): after resolving "python" and then "javascript",
`ignoreFirstLine` is still `true` — `setDelimiter` never resets it, so the
claimed invariant fails across resolver call sequences — although a single
resolution of "javascript" from the fresh state leaves it `false`. -/
theorem C5_ignore_first_line_stale :
    (setDelimiter (setDelimiter (Parser.new ⟨true, false,
        [⟨"TODO".toList, "red".toList, false⟩]⟩) "python")
      "javascript").ignoreFirstLine = true ∧
    (setDelimiter (Parser.new ⟨true, false,
        [⟨"TODO".toList, "red".toList, false⟩]⟩)
      "javascript").ignoreFirstLine = false ∧
    (setDelimiter (Parser.new ⟨true, false,
        [⟨"TODO".toList, "red".toList, false⟩]⟩)
      "python").ignoreFirstLine = true := by
  decide

/-- C7: with tags `"!"` and `"!!"` configured in that order, scanning the
line `// !! urgent` in a `//`-delimited language produces exactly one match
whose group-3 capture is `"!"` (the `(!|!!)+` alternation consumes `!!` as
two iterations of the first-registered alternative `!`, whose last iteration
is captured), so the match is attributed to the first-registered tag `"!"`
and the tag `"!!"` receives nothing. -/
theorem C7_alternation_order_wins :
    slMatches (SetRegex (Parser.new ⟨true, false,
        [⟨"!".toList, "red".toList, false⟩, ⟨"!!".toList, "blue".toList, false⟩]⟩)
      "javascript") "// !! urgent".toList =
      [⟨0, 12, "!".toList, " urgent".toList⟩] ∧
    (FindSingleLineComments (SetRegex (Parser.new ⟨true, false,
        [⟨"!".toList, "red".toList, false⟩, ⟨"!!".toList, "blue".toList, false⟩]⟩)
      "javascript") "// !! urgent".toList).tags.map (fun t => (t.tag, t.ranges)) =
      [("!".toList, [((0, 0), (0, 12))]), ("!!".toList, [])] := by
  decide

/-- C8: the flush emits, for every configured tag in registration order, its
style (decoration) together with its accumulated ranges — one output entry
per tag, a tag with zero occurrences contributing its (empty) list rather
than being omitted — and then clears every tag's collection while keeping
the tags themselves (literal, escaped literal, decoration) intact. -/
theorem C8_flush_emits_and_clears (st : ParserState) :
    (ApplyDecorations st).1 = st.tags.map (fun t => (t.decoration, t.ranges)) ∧
    (ApplyDecorations st).1.length = st.tags.length ∧
    (∀ t ∈ (ApplyDecorations st).2.tags, t.ranges = []) ∧
    (ApplyDecorations st).2.tags.map (fun t => (t.tag, t.escapedTag, t.decoration)) =
      st.tags.map (fun t => (t.tag, t.escapedTag, t.decoration)) := by
  refine ⟨rfl, by simp [ApplyDecorations], ?_, ?_⟩
  · intro t ht
    simp only [ApplyDecorations, List.mem_map] at ht
    obtain ⟨u, _, hu⟩ := ht
    rw [← hu]
  · show (st.tags.map (fun t => { t with ranges := ([] : List Range) })).map
      (fun t => (t.tag, t.escapedTag, t.decoration)) = _
    rw [List.map_map]
    rfl

/-! ## Claim theorems: the scan cycle -/

theorem foldl_stripState {β : Type} (f : ParserState → β → ParserState)
    (hf : ∀ s b, stripState (f s b) = stripState s) :
    ∀ (l : List β) (s : ParserState), stripState (l.foldl f s) = stripState s := by
  intro l
  induction l with
  | nil => intro s; rfl
  | cons x xs ih =>
    intro s
    rw [List.foldl_cons, ih, hf]

theorem stripState_push (s : ParserState) (g : Str) (r : Range) :
    stripState { s with tags := pushRange s.tags g r } = stripState s := by
  show ({ s with tags := (pushRange s.tags g r).map (fun t => { t with ranges := [] }) }
    : ParserState) = _
  rw [pushRange_strip]
  rfl

theorem FindSingleLineComments_strip (st : ParserState) (text : Str) :
    stripState (FindSingleLineComments st text) = stripState st := by
  refine foldl_stripState _ ?_ (slMatches st text) st
  intro s m
  by_cases hc : s.ignoreFirstLine ∧ (posAt text m.index).1 = 0 ∧ (posAt text m.index).2 = 0
  · show stripState (if s.ignoreFirstLine ∧ _ ∧ _ then s else _) = stripState s
    rw [if_pos hc]
  · show stripState (if s.ignoreFirstLine ∧ _ ∧ _ then s else _) = stripState s
    rw [if_neg hc]
    exact stripState_push s m.tagText _

theorem FindMultilineComments_strip (st : ParserState) (text : Str) (jsdoc : Bool) :
    stripState (FindMultilineComments st text jsdoc) = stripState st := by
  by_cases hm : st.highlightMultilineComments = true
  · show stripState (if st.highlightMultilineComments = true then _ else st) = stripState st
    rw [if_pos hm]
    refine foldl_stripState _ ?_ _ st
    intro s om
    refine foldl_stripState _ ?_ _ s
    intro s2 im
    exact stripState_push s2 im.tagText _
  · show stripState (if st.highlightMultilineComments = true then _ else st) = stripState st
    rw [if_neg hm]

theorem ApplyDecorations_state (s : ParserState) :
    (ApplyDecorations s).2 = stripState s := rfl

theorem stripState_eq_self (s : ParserState) (h : ∀ t ∈ s.tags, t.ranges = []) :
    stripState s = s := by
  show ({ s with tags := s.tags.map (fun t => { t with ranges := [] }) } : ParserState) = s
  rw [strip_eq_self s.tags h]

theorem runScanCycle_state (st : ParserState) (text : Str)
    (h : ∀ t ∈ st.tags, t.ranges = []) :
    (runScanCycle st text).2 = st := by
  show (ApplyDecorations (if st.supportedLanguage = true then
      FindMultilineComments (FindSingleLineComments st text) text
        st.contributions.useJSDocStyle
    else st)).2 = st
  rw [ApplyDecorations_state]
  by_cases hs : st.supportedLanguage = true
  · rw [if_pos hs, FindMultilineComments_strip, FindSingleLineComments_strip,
      stripState_eq_self st h]
  · rw [if_neg hs, stripState_eq_self st h]

/-- C9: scanning is idempotent across cycles: starting from a state whose
range collections are empty (a fresh parser, or any state right after a
flush), running the full cycle (single-line scan, multi-line scan, flush)
twice on the same text and configuration emits the same output both times —
because the flush restores the state exactly, the second cycle recomputes
the very same ranges. -/
theorem C9_cycle_idempotent (st : ParserState) (text : Str)
    (h : ∀ t ∈ st.tags, t.ranges = []) :
    (runScanCycle (runScanCycle st text).2 text).1 = (runScanCycle st text).1 ∧
    (runScanCycle (runScanCycle st text).2 text).2 = (runScanCycle st text).2 := by
  rw [runScanCycle_state st text h]
  exact ⟨rfl, runScanCycle_state st text h⟩

theorem C9_cycle_idempotent_witness :
    (∀ t ∈ (SetRegex (Parser.new ⟨true, false,
        [⟨"TODO".toList, "red".toList, false⟩]⟩) "javascript").tags, t.ranges = []) ∧
    ((runScanCycle (runScanCycle (SetRegex (Parser.new ⟨true, false,
        [⟨"TODO".toList, "red".toList, false⟩]⟩) "javascript")
        "// TODO x".toList).2 "// TODO x".toList).1 =
      (runScanCycle (SetRegex (Parser.new ⟨true, false,
        [⟨"TODO".toList, "red".toList, false⟩]⟩) "javascript")
        "// TODO x".toList).1 ∧
    (runScanCycle (runScanCycle (SetRegex (Parser.new ⟨true, false,
        [⟨"TODO".toList, "red".toList, false⟩]⟩) "javascript")
        "// TODO x".toList).2 "// TODO x".toList).2 =
      (runScanCycle (SetRegex (Parser.new ⟨true, false,
        [⟨"TODO".toList, "red".toList, false⟩]⟩) "javascript")
        "// TODO x".toList).2) :=
  ⟨by decide,
   C9_cycle_idempotent (SetRegex (Parser.new ⟨true, false,
     [⟨"TODO".toList, "red".toList, false⟩]⟩) "javascript")
     "// TODO x".toList (by decide)⟩

/-- C2: for a language identifier outside the classification table the
resolver reports `supportedLanguage = false` and, per the spec's no-op
contract for the scan-cycle driver, a cycle over any document text performs
no matching: no range is appended to any tag, and the flush emits, for every
configured tag in registration order, its style with the empty range list. -/
theorem C2_unsupported_language_noop (contrib : Contributions) (lang : String)
    (text : Str)
    (h : (SetRegex (Parser.new contrib) lang).supportedLanguage = false) :
    (runScanCycle (SetRegex (Parser.new contrib) lang) text).1 =
      (SetRegex (Parser.new contrib) lang).tags.map (fun t => (t.decoration, [])) ∧
    (runScanCycle (SetRegex (Parser.new contrib) lang) text).2.tags =
      (SetRegex (Parser.new contrib) lang).tags := by
  have hranges : ∀ t ∈ (SetRegex (Parser.new contrib) lang).tags, t.ranges = [] := by
    intro t ht
    rw [SetRegex_tags, setDelimiter_tags] at ht
    exact new_tags_ranges contrib t ht
  have hno : ¬ ((SetRegex (Parser.new contrib) lang).supportedLanguage = true) := by
    rw [h]
    exact Bool.false_ne_true
  constructor
  · show (ApplyDecorations (if (SetRegex (Parser.new contrib) lang).supportedLanguage = true
        then _ else SetRegex (Parser.new contrib) lang)).1 = _
    rw [if_neg hno]
    show (SetRegex (Parser.new contrib) lang).tags.map (fun t => (t.decoration, t.ranges)) = _
    exact map_congr_mem _ _ _ (fun t ht => by rw [hranges t ht])
  · show (ApplyDecorations (if (SetRegex (Parser.new contrib) lang).supportedLanguage = true
        then _ else SetRegex (Parser.new contrib) lang)).2.tags = _
    rw [if_neg hno, ApplyDecorations_state, stripState_eq_self _ hranges]

theorem C2_unsupported_language_noop_witness :
    ((SetRegex (Parser.new ⟨true, true,
        [⟨"TODO".toList, "red".toList, false⟩]⟩) "brainfuck").supportedLanguage = false) ∧
    ((runScanCycle (SetRegex (Parser.new ⟨true, true,
        [⟨"TODO".toList, "red".toList, false⟩]⟩) "brainfuck") "// TODO x".toList).1 =
      (SetRegex (Parser.new ⟨true, true,
        [⟨"TODO".toList, "red".toList, false⟩]⟩) "brainfuck").tags.map
        (fun t => (t.decoration, [])) ∧
    (runScanCycle (SetRegex (Parser.new ⟨true, true,
        [⟨"TODO".toList, "red".toList, false⟩]⟩) "brainfuck") "// TODO x".toList).2.tags =
      (SetRegex (Parser.new ⟨true, true,
        [⟨"TODO".toList, "red".toList, false⟩]⟩) "brainfuck").tags) :=
  ⟨by decide,
   C2_unsupported_language_noop ⟨true, true, [⟨"TODO".toList, "red".toList, false⟩]⟩
     "brainfuck" "// TODO x".toList (by decide)⟩

/-! ## Claim theorems: multiline blocks -/

/-- C4: with multiline scanning enabled, the doc-style block
`/** \n * TODO text \n */` yields, via the doc-style pattern pair, exactly
one outer block match (the whole text) and exactly one inner line match at
local offset 5 with `line[0].length = 13` and leading-prefix capture
`line[2] = " * "` of length 3, so exactly one range is appended to the tag:
from absolute offset `0 + 5 + 3` (just after the prefix capture, position
(1,3)) to `0 + 5 + 13` (the end of the full inner match, position (1,13)).
The plain block `/* \n TODO text \n */` likewise yields, via the non-doc
pattern pair, exactly one range from `0 + 4 + 1` (position (1,1)) to
`0 + 4 + 11` (position (1,11)).  In both cases the other configured tag
receives nothing. -/
theorem C4_multiline_block_ranges :
    mlOuterAll true "/** \n * TODO text \n */".toList 0
        ("/** \n * TODO text \n */".toList.length + 2) = [⟨0, 22⟩] ∧
    mlInnerAll true ["TODO".toList, "FIXME".toList] "/** \n * TODO text \n */".toList 0
        ("/** \n * TODO text \n */".toList.length + 2) =
      [⟨5, 13, 3, "TODO".toList⟩] ∧
    posAt "/** \n * TODO text \n */".toList (0 + 5 + 3) = (1, 3) ∧
    posAt "/** \n * TODO text \n */".toList (0 + 5 + 13) = (1, 13) ∧
    (FindMultilineComments (SetRegex (Parser.new ⟨true, false,
        [⟨"TODO".toList, "red".toList, false⟩, ⟨"FIXME".toList, "blue".toList, false⟩]⟩)
      "javascript") "/** \n * TODO text \n */".toList true).tags.map
        (fun t => (t.tag, t.ranges)) =
      [("TODO".toList, [((1, 3), (1, 13))]), ("FIXME".toList, [])] ∧
    mlOuterAll false "/* \n TODO text \n */".toList 0
        ("/* \n TODO text \n */".toList.length + 2) = [⟨0, 19⟩] ∧
    mlInnerAll false ["TODO".toList, "FIXME".toList] "/* \n TODO text \n */".toList 0
        ("/* \n TODO text \n */".toList.length + 2) =
      [⟨4, 11, 1, "TODO".toList⟩] ∧
    posAt "/* \n TODO text \n */".toList (0 + 4 + 1) = (1, 1) ∧
    posAt "/* \n TODO text \n */".toList (0 + 4 + 11) = (1, 11) ∧
    (FindMultilineComments (SetRegex (Parser.new ⟨true, false,
        [⟨"TODO".toList, "red".toList, false⟩, ⟨"FIXME".toList, "blue".toList, false⟩]⟩)
      "javascript") "/* \n TODO text \n */".toList false).tags.map
        (fun t => (t.tag, t.ranges)) =
      [("TODO".toList, [((1, 1), (1, 11))]), ("FIXME".toList, [])] := by
  refine ⟨?_, ?_, ?_, ?_, ?_, ?_, ?_, ?_, ?_, ?_⟩ <;> decide
